import Mathlib

/-!
# Iratahack flash multi-cart mapper

A shallow embedding of `src/IratahackMemoryRule.cpp` / `IratahackMemoryRule.h`
(Gearsystem) and theorems about it.

Conventions of the embedding

* `u16` / `u8` parameters are natural numbers; a theorem that needs the range
  states it.
* C++ `int` values are mathematical integers (`x << 17` is `x * 2 ^ 17`); no
  `int` operation overflows on a state reachable from `Reset`.  Conversions to
  `u32` / `size_t` are explicit (`toU32`, `toSizeT`) because the code relies
  on them in the bounds checks of the flash writes.
* A buffer is the memory seen from its base pointer: `buf i` is the byte at
  `base + i`, for any integer `i`.  The flash store proper is `m_pFlash i` for
  `0 ≤ i < 0x80000` (`new u8[0x80000]`).  An access at another index is an
  access outside the store; the embedding keeps it visible as such instead of
  hiding it, and statements about "the flash store" quantify over the indices
  of the store.
* A `std::istream` is the list of bytes it still holds; a one-byte read from an
  exhausted stream leaves the destination byte as it was.
* `Debug` / `Log` calls have no effect on the state and are dropped.
-/

namespace Iratahack

/-! ## Machine-level helpers -/

/-- A byte buffer seen from its base pointer. -/
abbrev Buffer := Int → Nat

/-- Conversion of an `int` expression to `u32`. -/
def toU32 (x : Int) : Nat := (x % 2 ^ 32).toNat

/-- Conversion of an `int` expression to `size_t` (64-bit). -/
def toSizeT (x : Int) : Nat := (x % 2 ^ 64).toNat

/-- The call `memcpy(dst, src, n)`. -/
def memcpy (dst src : Buffer) (n : Nat) : Buffer :=
  fun i => if 0 ≤ i ∧ i < (n : Int) then src i else dst i

/-- The call `memset(buf + base, value, n)`. -/
def memset (buf : Buffer) (base : Int) (value : Nat) (n : Nat) : Buffer :=
  fun i => if base ≤ i ∧ i < base + (n : Int) then value else buf i

/-- The assignment `buf[index] = value`. -/
def store (buf : Buffer) (index : Int) (value : Nat) : Buffer :=
  fun i => if i = index then value else buf i

/-- An `int[3]` member. -/
structure Int3 where
  x0 : Int
  x1 : Int
  x2 : Int
deriving DecidableEq, Repr

/-- Array read `a[i]` for `i` in `0..2`. -/
def Int3.get (a : Int3) (i : Nat) : Int :=
  if i = 0 then a.x0 else if i = 1 then a.x1 else a.x2

/-- Array write `a[i] = v` for `i` in `0..2`. -/
def Int3.set (a : Int3) (i : Nat) (v : Int) : Int3 :=
  if i = 0 then { a with x0 := v } else if i = 1 then { a with x1 := v } else { a with x2 := v }

/-! ## Collaborators -/

/-- Modelled from the spec: the console-RAM collaborator `Memory` (`Memory.h` is
not among the sources): a map from 16-bit address to byte. -/
structure Memory where
  map : Nat → Nat

/-- Modelled from the spec: `Retrieve(address) -> byte` gets the byte of the map. -/
def Memory.Retrieve (m : Memory) (address : Nat) : Nat := m.map address

/-- Modelled from the spec: `Load(address, byte)` sets the byte of the map. -/
def Memory.Load (m : Memory) (address value : Nat) : Memory :=
  ⟨fun a => if a = address then value else m.map a⟩

/-- Modelled from the spec: the ROM-image provider `Cartridge` (`Cartridge.h` is
not among the sources), exposing `GetROM() -> byte buffer` and
`GetROMSize() -> integer`. -/
structure Cartridge where
  GetROM : Buffer
  GetROMSize : Int

/-! ## Data model (`IratahackMemoryRule.h`) -/

/-- The value of an object of the enum type `FlashSeqMode`: one of the four
enumerators (`FlashSeqCount` doubles as "no mode"), or, as `LoadState` can
leave it, a stored `int` value `tag` that is none of them (`raw`). -/
inductive FlashSeqMode where
  | FlashSeqID
  | FlashSeqErase
  | FlashSeqWrite
  | FlashSeqCount
  | raw (tag : Int) (h : tag < 0 ∨ 3 < tag)
deriving DecidableEq

/-- Integer value of an enumerator, as the row index of `kFlashSeqs` and of
`m_iFlashStep` (the code indexes with enumerators only). -/
def FlashSeqMode.toNat : FlashSeqMode → Nat
  | .FlashSeqID => 0
  | .FlashSeqErase => 1
  | .FlashSeqWrite => 2
  | .FlashSeqCount => 3
  | .raw tag _ => tag.toNat

/-- The `int` value stored in an object of the enum type. -/
def FlashSeqMode.toInt : FlashSeqMode → Int
  | .FlashSeqID => 0
  | .FlashSeqErase => 1
  | .FlashSeqWrite => 2
  | .FlashSeqCount => 3
  | .raw tag _ => tag

/-- The members of the class, with the two collaborator pointers of the base
class `MemoryRule` represented by the collaborators' contents. -/
structure IratahackMemoryRule where
  m_pMemory : Memory
  m_pCartridge : Cartridge
  m_iMapperSlot : Int3
  m_iMapperSlotAddress : Int3
  m_iGameSlot : Int
  m_pFlash : Buffer
  m_iFlashMode : FlashSeqMode
  m_iFlashStep : Int3

/-- The table `kFlashSeqs[FlashSeqCount][11]`; rows shorter than 11 are
zero-filled by aggregate initialisation. -/
def kFlashSeqsRows : List (List Int) :=
  [ [0x5555, 0xAA, 0x2AAA, 0x55, 0x5555, 0x90, -1, 0, 0, 0, 0],
    [0x5555, 0xAA, 0x2AAA, 0x55, 0x5555, 0x80, 0x5555, 0xAA, 0x2AAA, 0x55, -1],
    [0x5555, 0xAA, 0x2AAA, 0x55, 0x5555, 0xA0, -1, 0, 0, 0, 0] ]

/-- The read `kFlashSeqs[seqIndex][step]`.  A read outside the row (which the
step-counter discipline of the sequencer never issues) yields 0 in the
model. -/
def kFlashSeqs (seqIndex : Nat) (step : Int) : Int :=
  if 0 ≤ step then ((kFlashSeqsRows.getD seqIndex []).getD step.toNat 0) else 0

/-! ## Object representations and streams (for `SaveState` / `LoadState`)

`stream.write(reinterpret_cast<const char*>(p), n)` appends the `n` bytes of
the object at `p`; `stream.read` overwrites them with the next bytes of the
stream, as many as the stream still holds.  An `int` (and the enum, whose
underlying type is `int`) is four bytes, least significant first, in two's
complement; an `int[3]` is its three elements in order. -/

/-- The four bytes of an `int`. -/
def intBytes (x : Int) : List Nat :=
  [toU32 x % 256, toU32 x / 256 % 256, toU32 x / 65536 % 256, toU32 x / 16777216 % 256]

/-- The `int` whose bytes are the first four elements of `bs`. -/
def bytesInt (bs : List Nat) : Int :=
  if (bs.getD 0 0 + 256 * bs.getD 1 0 + 65536 * bs.getD 2 0 + 16777216 * bs.getD 3 0)
      % 2 ^ 32 < 2 ^ 31 then
    (((bs.getD 0 0 + 256 * bs.getD 1 0 + 65536 * bs.getD 2 0 + 16777216 * bs.getD 3 0)
      % 2 ^ 32 : Nat) : Int)
  else
    (((bs.getD 0 0 + 256 * bs.getD 1 0 + 65536 * bs.getD 2 0 + 16777216 * bs.getD 3 0)
      % 2 ^ 32 : Nat) : Int) - 2 ^ 32

/-- The twelve bytes of an `int[3]`. -/
def int3Bytes (a : Int3) : List Nat :=
  intBytes a.x0 ++ intBytes a.x1 ++ intBytes a.x2

/-- The `int[3]` whose bytes are the first twelve elements of `bs`. -/
def bytesInt3 (bs : List Nat) : Int3 :=
  ⟨bytesInt bs, bytesInt (bs.drop 4), bytesInt (bs.drop 8)⟩

/-- The object of the enum type that stores a given `int` value: the
enumerator with that value if there is one, the raw value otherwise. -/
def FlashSeqMode.ofInt (x : Int) : FlashSeqMode :=
  if h : x < 0 ∨ 3 < x then FlashSeqMode.raw x h
  else if x = 0 then FlashSeqMode.FlashSeqID
  else if x = 1 then FlashSeqMode.FlashSeqErase
  else if x = 2 then FlashSeqMode.FlashSeqWrite
  else FlashSeqMode.FlashSeqCount

/-- The bytes `buf[0]`, ..., `buf[n - 1]` of a buffer. -/
def bufferBytes (buf : Buffer) (n : Nat) : List Nat :=
  (List.range n).map (fun (i : Nat) => buf (i : Int))

/-- The call `stream.read(p, n)` into an object whose `n` bytes are `old`:
the bytes of the object afterwards and the rest of the stream. -/
def streamRead (stream old : List Nat) : List Nat × List Nat :=
  (stream.take old.length ++ old.drop stream.length, stream.drop old.length)

/-- The call `stream.read(buf, n)` into a buffer: the buffer afterwards and the
rest of the stream. -/
def streamReadBuffer (stream : List Nat) (buf : Buffer) (n : Nat) : Buffer × List Nat :=
  (fun i => if 0 ≤ i ∧ i < (n : Int) ∧ i.toNat < stream.length then stream.getD i.toNat 0
            else buf i,
    stream.drop n)

namespace IratahackMemoryRule

/-! ## Operations (`IratahackMemoryRule.cpp`) -/

/-- The method `PerformRead(u16 address)`. -/
def PerformRead (s : IratahackMemoryRule) (address : Nat) : Nat :=
  if address < 0x4000 then
    if s.m_iFlashMode = FlashSeqMode.FlashSeqID then
      if address = 0x0000 then 0xBF
      else if address = 0x0001 then 0xB7
      else 0xFF
    else
      s.m_pFlash ((address : Int) + s.m_iMapperSlotAddress.get 0)
  else if address < 0x8000 then
    s.m_pFlash (((address : Int) - 0x4000) + s.m_iMapperSlotAddress.get 1)
  else if address < 0xC000 then
    s.m_pFlash (((address : Int) - 0x8000) + s.m_iMapperSlotAddress.get 2)
  else
    s.m_pMemory.Retrieve address

/-- The method `ResetFlashState()`. -/
def ResetFlashState (s : IratahackMemoryRule) : IratahackMemoryRule :=
  { s with m_iFlashMode := FlashSeqMode.FlashSeqCount, m_iFlashStep := ⟨0, 0, 0⟩ }

/-- The method `AdvanceSequence(seqIndex, steps, address, value)`: the returned
flag and the updated `steps` array. -/
def AdvanceSequence (seqIndex : Nat) (steps : Int3) (address value : Nat) : Bool × Int3 :=
  let step := steps.get seqIndex
  if kFlashSeqs seqIndex step = -1 then
    (false, steps.set seqIndex 0)
  else if (address : Int) = kFlashSeqs seqIndex step ∧ (value : Int) = kFlashSeqs seqIndex (step + 1) then
    let step := step + 2
    (decide (kFlashSeqs seqIndex step = -1),
      steps.set seqIndex (if kFlashSeqs seqIndex step = -1 then 0 else step))
  else
    (false, steps.set seqIndex 0)

/-- The method `ProcessFlashAccess(address, value)`: the three tracks are
advanced in the order Write, Erase, ID, each on the steps left by the
previous one. -/
def ProcessFlashAccess (s : IratahackMemoryRule) (address value : Nat) : IratahackMemoryRule :=
  let r1 := AdvanceSequence FlashSeqMode.FlashSeqWrite.toNat s.m_iFlashStep address value
  let s1 := { s with m_iFlashStep := r1.2,
                     m_iFlashMode := if r1.1 then FlashSeqMode.FlashSeqWrite else s.m_iFlashMode }
  let r2 := AdvanceSequence FlashSeqMode.FlashSeqErase.toNat s1.m_iFlashStep address value
  let s2 := { s1 with m_iFlashStep := r2.2,
                      m_iFlashMode := if r2.1 then FlashSeqMode.FlashSeqErase else s1.m_iFlashMode }
  let r3 := AdvanceSequence FlashSeqMode.FlashSeqID.toNat s2.m_iFlashStep address value
  { s2 with m_iFlashStep := r3.2,
            m_iFlashMode := if r3.1 then FlashSeqMode.FlashSeqID else s2.m_iFlashMode }

/-- The local `u32 sectorBase` of the erase branch of `PerformWrite`, after
`sectorBase &= ~0x3FFF` (`~0x3FFF` converted to `u32` is `0xFFFFC000`). -/
def sectorBase (s : IratahackMemoryRule) (address : Nat) : Nat :=
  toU32 (s.m_iMapperSlotAddress.get 2 + ((address : Int) - 0x8000)) &&& 0xFFFFC000

/-- The local `u32 flashIndex` of the byte-program branch of `PerformWrite`. -/
def flashIndex (s : IratahackMemoryRule) (address : Nat) : Nat :=
  if address < 0x4000 then
    toU32 ((address : Int) + s.m_iMapperSlotAddress.get 0)
  else if address < 0x8000 then
    toU32 (((address : Int) - 0x4000) + s.m_iMapperSlotAddress.get 1)
  else
    toU32 (((address : Int) - 0x8000) + s.m_iMapperSlotAddress.get 2)

/-- The method `PerformWrite(u16 address, u8 value)`. -/
def PerformWrite (s : IratahackMemoryRule) (address value : Nat) : IratahackMemoryRule :=
  if address = 0x5555 ∨ address = 0x2AAA then
    ProcessFlashAccess s address value
  else if address < 0xC000 then
    if s.m_iFlashMode = FlashSeqMode.FlashSeqID then
      ResetFlashState s
    else if s.m_iFlashMode = FlashSeqMode.FlashSeqErase then
      let s1 :=
        if value = 0x30 then
          if (sectorBase s address + 0x4000) % 2 ^ 32 ≤ 0x80000 then
            { s with m_pFlash := memset s.m_pFlash (sectorBase s address) 0xFF 0x4000 }
          else s
        else s
      ResetFlashState s1
    else if s.m_iFlashMode = FlashSeqMode.FlashSeqWrite then
      let s1 :=
        if flashIndex s address < 0x80000 then
          { s with m_pFlash := store s.m_pFlash (flashIndex s address) value }
        else s
      ResetFlashState s1
    else
      s
  else if address < 0xE000 then
    { s with m_pMemory := (s.m_pMemory.Load address value).Load ((address + 0x2000) % 0x10000) value }
  else
    let s1 := { s with m_pMemory := (s.m_pMemory.Load address value).Load (address - 0x2000) value }
    if address = 0xFFFE then
      let gameSlot : Int := ((value &&& 3 : Nat) : Int)
      { s1 with
        m_iGameSlot := gameSlot,
        m_iMapperSlotAddress :=
          ⟨gameSlot * 2 ^ 17,
           gameSlot * 2 ^ 17 + 0x4000,
           gameSlot * 2 ^ 17 + s1.m_iMapperSlot.get 2 * 0x4000⟩ }
    else if address = 0xFFFF then
      let bank : Int := ((value &&& 7 : Nat) : Int)
      { s1 with
        m_iMapperSlot := s1.m_iMapperSlot.set 2 bank,
        m_iMapperSlotAddress :=
          s1.m_iMapperSlotAddress.set 2 (s1.m_iGameSlot * 2 ^ 17 + bank * 0x4000) }
    else
      s1

/-- The method `Reset()`. -/
def Reset (s : IratahackMemoryRule) : IratahackMemoryRule :=
  let s1 := ResetFlashState
    { s with
      m_iGameSlot := 0,
      m_iMapperSlot := ⟨0, 1, 0⟩,
      m_iMapperSlotAddress := ⟨0x0000, 0x4000, 0x0000⟩ }
  let romSize := s.m_pCartridge.GetROMSize
  let pROM := s.m_pCartridge.GetROM
  let copySize : Int := if romSize < 0x80000 then romSize else 0x80000
  let flash1 := memcpy s1.m_pFlash pROM (toSizeT copySize)
  let flash2 :=
    if copySize < 0x80000 then memset flash1 copySize 0xFF (toSizeT (0x80000 - copySize))
    else flash1
  { s1 with m_pFlash := flash2 }

/-- The loop of `LoadRam`, `count` iterations starting at index `i`: each
iteration reads one byte of the stream into `ram_byte` (which stays 0 when the
stream is exhausted) and stores it at `m_pFlash[i]`. -/
def LoadRamLoop : Nat → Int → List Nat → Buffer → Buffer
  | 0, _, _, flash => flash
  | count + 1, i, file, flash =>
      LoadRamLoop count (i + 1) file.tail (store flash i (file.headD 0))

/-- The method `LoadRam(std::istream& file, s32 fileSize)`: the returned flag
and the state afterwards.  The stream is the list of bytes it still holds. -/
def LoadRam (s : IratahackMemoryRule) (file : List Nat) (fileSize : Int) :
    Bool × IratahackMemoryRule :=
  if fileSize > 0 ∧ fileSize ≠ 0x80000 then
    (false, s)
  else
    (true, { s with m_pFlash := LoadRamLoop 0x80000 0 file s.m_pFlash })

/-- The method `SaveState(std::ostream& stream)`: the contents of the stream
after the six `stream.write` calls, `stream` being its contents before. -/
def SaveState (s : IratahackMemoryRule) (stream : List Nat) : List Nat :=
  stream ++
    (bufferBytes s.m_pFlash 0x80000 ++
      (int3Bytes s.m_iMapperSlot ++
        (int3Bytes s.m_iMapperSlotAddress ++
          (intBytes s.m_iGameSlot ++
            (intBytes s.m_iFlashMode.toInt ++ int3Bytes s.m_iFlashStep)))))

/-- The method `LoadState(std::istream& stream)`: the six `stream.read` calls,
each on the rest of the stream left by the previous one. -/
def LoadState (s : IratahackMemoryRule) (stream : List Nat) : IratahackMemoryRule :=
  let r0 := streamReadBuffer stream s.m_pFlash 0x80000
  let r1 := streamRead r0.2 (int3Bytes s.m_iMapperSlot)
  let r2 := streamRead r1.2 (int3Bytes s.m_iMapperSlotAddress)
  let r3 := streamRead r2.2 (intBytes s.m_iGameSlot)
  let r4 := streamRead r3.2 (intBytes s.m_iFlashMode.toInt)
  let r5 := streamRead r4.2 (int3Bytes s.m_iFlashStep)
  { s with
    m_pFlash := r0.1,
    m_iMapperSlot := bytesInt3 r1.1,
    m_iMapperSlotAddress := bytesInt3 r2.1,
    m_iGameSlot := bytesInt r3.1,
    m_iFlashMode := FlashSeqMode.ofInt (bytesInt r4.1),
    m_iFlashStep := bytesInt3 r5.1 }

end IratahackMemoryRule

open IratahackMemoryRule

/-- States reachable from `Reset` by `PerformWrite` calls.  Addresses and
values range over all naturals, which includes every `u16` / `u8`. -/
inductive Reachable : IratahackMemoryRule → Prop where
  | reset (s : IratahackMemoryRule) : Reachable (Reset s)
  | write (s : IratahackMemoryRule) (address value : Nat) :
      Reachable s → Reachable (PerformWrite s address value)

/-- The effect of `ProcessFlashAccess` on the sequencer (mode and steps), which
is all it touches: see `ProcessFlashAccess_eq`. -/
def seqStep (mode : FlashSeqMode) (steps : Int3) (address value : Nat) : FlashSeqMode × Int3 :=
  let r1 := AdvanceSequence FlashSeqMode.FlashSeqWrite.toNat steps address value
  let m1 := if r1.1 then FlashSeqMode.FlashSeqWrite else mode
  let r2 := AdvanceSequence FlashSeqMode.FlashSeqErase.toNat r1.2 address value
  let m2 := if r2.1 then FlashSeqMode.FlashSeqErase else m1
  let r3 := AdvanceSequence FlashSeqMode.FlashSeqID.toNat r2.2 address value
  (if r3.1 then FlashSeqMode.FlashSeqID else m2, r3.2)

/-- The sequencer after a list of command writes. -/
def seqRun (mode : FlashSeqMode) (steps : Int3) (ws : List (Nat × Nat)) : FlashSeqMode × Int3 :=
  ws.foldl (fun p w => seqStep p.1 p.2 w.1 w.2) (mode, steps)

/-- A list of `PerformWrite` calls, first element first. -/
def writes (s : IratahackMemoryRule) (ws : List (Nat × Nat)) : IratahackMemoryRule :=
  ws.foldl (fun s w => PerformWrite s w.1 w.2) s

/-- The translated offset of an address below 0xC000: the index at which
`PerformRead` reads `m_pFlash` (outside Software-ID mode), which is also the
`int` expression converted to `flashIndex` in the byte-program branch of
`PerformWrite`. -/
def windowOffset (s : IratahackMemoryRule) (address : Nat) : Int :=
  if address < 0x4000 then
    (address : Int) + s.m_iMapperSlotAddress.get 0
  else if address < 0x8000 then
    ((address : Int) - 0x4000) + s.m_iMapperSlotAddress.get 1
  else
    ((address : Int) - 0x8000) + s.m_iMapperSlotAddress.get 2

/-- The flash buffer that `Reset` leaves, as a function of the buffer before
and of the cartridge: see `Reset_eq`. -/
def resetFlash (flash : Buffer) (cart : Cartridge) : Buffer :=
  if cart.GetROMSize < 0x80000 then
    memset (memcpy flash cart.GetROM (toSizeT cart.GetROMSize)) cart.GetROMSize 0xFF
      (toSizeT (0x80000 - cart.GetROMSize))
  else
    memcpy flash cart.GetROM (toSizeT 0x80000)

/-- The value range of a C++ `int`. -/
def IsInt32 (x : Int) : Prop := -2 ^ 31 ≤ x ∧ x < 2 ^ 31

/-- The derived-offset relation between the registers and the cached window
offsets. -/
def SlotInv (s : IratahackMemoryRule) : Prop :=
  0 ≤ s.m_iGameSlot ∧ s.m_iGameSlot ≤ 3 ∧
  0 ≤ s.m_iMapperSlot.x2 ∧ s.m_iMapperSlot.x2 ≤ 7 ∧
  s.m_iMapperSlotAddress.x0 = s.m_iGameSlot * 0x20000 ∧
  s.m_iMapperSlotAddress.x1 = s.m_iGameSlot * 0x20000 + 0x4000 ∧
  s.m_iMapperSlotAddress.x2 = s.m_iGameSlot * 0x20000 + s.m_iMapperSlot.x2 * 0x4000

/-- The step counters that index an (address, value) pair of their row of
`kFlashSeqs` before the `-1` sentinel: 0, 2, 4 for the two three-pair rows
(`FlashSeqID`, `FlashSeqWrite`) and 0, 2, 4, 6, 8 for the five-pair row
(`FlashSeqErase`). -/
def StepInv (steps : Int3) : Prop :=
  (steps.x0 = 0 ∨ steps.x0 = 2 ∨ steps.x0 = 4) ∧
  (steps.x1 = 0 ∨ steps.x1 = 2 ∨ steps.x1 = 4 ∨ steps.x1 = 6 ∨ steps.x1 = 8) ∧
  (steps.x2 = 0 ∨ steps.x2 = 2 ∨ steps.x2 = 4)

/-- The three `AdvanceSequence` evaluations of `ProcessFlashAccess`, made in
the given order of tracks instead of the order Write, Erase, ID of the code:
the mode and steps afterwards.  `advanceInOrder_code` relates the code's order
to `ProcessFlashAccess`. -/
def advanceInOrder (order : List FlashSeqMode) (mode : FlashSeqMode) (steps : Int3)
    (address value : Nat) : FlashSeqMode × Int3 :=
  order.foldl
    (fun p k =>
      ((if (AdvanceSequence k.toNat p.2 address value).1 then k else p.1),
        (AdvanceSequence k.toNat p.2 address value).2))
    (mode, steps)

/-- Agreement of two instances on everything a snapshot holds: the 0x80000
bytes of the flash store, `m_iMapperSlot`, `m_iMapperSlotAddress`,
`m_iGameSlot`, the mode and the step counters. -/
def SnapshotEq (a b : IratahackMemoryRule) : Prop :=
  (∀ i : Int, 0 ≤ i → i < 0x80000 → a.m_pFlash i = b.m_pFlash i) ∧
  a.m_iMapperSlot = b.m_iMapperSlot ∧
  a.m_iMapperSlotAddress = b.m_iMapperSlotAddress ∧
  a.m_iGameSlot = b.m_iGameSlot ∧
  a.m_iFlashMode = b.m_iFlashMode ∧
  a.m_iFlashStep = b.m_iFlashStep

/-- All `int` members, and the value stored in the enum member, are values of
a C++ `int`. -/
def WellTyped (s : IratahackMemoryRule) : Prop :=
  (IsInt32 s.m_iMapperSlot.x0 ∧ IsInt32 s.m_iMapperSlot.x1 ∧ IsInt32 s.m_iMapperSlot.x2) ∧
  (IsInt32 s.m_iMapperSlotAddress.x0 ∧ IsInt32 s.m_iMapperSlotAddress.x1 ∧
    IsInt32 s.m_iMapperSlotAddress.x2) ∧
  IsInt32 s.m_iGameSlot ∧
  IsInt32 s.m_iFlashMode.toInt ∧
  (IsInt32 s.m_iFlashStep.x0 ∧ IsInt32 s.m_iFlashStep.x1 ∧ IsInt32 s.m_iFlashStep.x2)

/-! ## Fixtures for the concrete instances -/

/-- A cartridge whose ROM is 512KB of zero bytes. -/
def zeroCartridge : Cartridge := ⟨fun _ => 0, 0x80000⟩

/-- An arbitrary prior state of the mapper for `zeroCartridge`. -/
def blankState : IratahackMemoryRule :=
  { m_pMemory := ⟨fun _ => 0⟩,
    m_pCartridge := zeroCartridge,
    m_iMapperSlot := ⟨0, 0, 0⟩,
    m_iMapperSlotAddress := ⟨0, 0, 0⟩,
    m_iGameSlot := 0,
    m_pFlash := fun _ => 0,
    m_iFlashMode := FlashSeqMode.FlashSeqCount,
    m_iFlashStep := ⟨0, 0, 0⟩ }

/-- The state right after `Reset` with `zeroCartridge` inserted. -/
def freshState : IratahackMemoryRule := Reset blankState

/-! ## Basic facts -/

theorem and_mask_eq (x : Nat) (h : x < 2 ^ 32) : x &&& 0xFFFFC000 = x / 0x4000 * 0x4000 := by
  apply Nat.eq_of_testBit_eq
  intro i
  have hM : (0xFFFFC000 : Nat) = (2 ^ 18 - 1) <<< 14 := by decide
  have hx : x / 0x4000 * 0x4000 = (x >>> 14) <<< 14 := by
    rw [Nat.shiftLeft_eq, Nat.shiftRight_eq_div_pow]
  rw [Nat.testBit_and, hM, Nat.testBit_shiftLeft, Nat.testBit_two_pow_sub_one, hx,
    Nat.testBit_shiftLeft, Nat.testBit_shiftRight]
  by_cases h14 : 14 ≤ i
  · by_cases h32 : i - 14 < 18
    · simp [h14, h32]
    · have hi : 14 + (i - 14) = i := by omega
      have hlt : x < 2 ^ i :=
        lt_of_lt_of_le h (Nat.pow_le_pow_right (by norm_num) (by omega))
      simp [h14, h32, hi, Nat.testBit_eq_false_of_lt hlt]
  · simp [h14]

theorem ProcessFlashAccess_eq (s : IratahackMemoryRule) (a v : Nat) :
    ProcessFlashAccess s a v =
      { s with
        m_iFlashMode := (seqStep s.m_iFlashMode s.m_iFlashStep a v).1,
        m_iFlashStep := (seqStep s.m_iFlashMode s.m_iFlashStep a v).2 } := rfl

/-- The starting mode only passes through `ProcessFlashAccess`: the steps
afterwards do not depend on it, and the mode afterwards is the starting mode
unless a track completes. -/
theorem seqStep_of_count (m : FlashSeqMode) (steps : Int3) (a v : Nat)
    (m1 : FlashSeqMode) (steps1 : Int3)
    (h : seqStep FlashSeqMode.FlashSeqCount steps a v = (m1, steps1)) :
    seqStep m steps a v = (if m1 = FlashSeqMode.FlashSeqCount then m else m1, steps1) := by
  simp only [seqStep, Prod.mk.injEq] at h ⊢
  obtain ⟨hm, hs⟩ := h
  refine ⟨?_, hs⟩
  rw [← hm]
  split_ifs <;> simp_all

theorem writes_cmd (ws : List (Nat × Nat)) :
    ∀ s : IratahackMemoryRule, (∀ w ∈ ws, w.1 = 0x5555 ∨ w.1 = 0x2AAA) →
      writes s ws =
        { s with
          m_iFlashMode := (seqRun s.m_iFlashMode s.m_iFlashStep ws).1,
          m_iFlashStep := (seqRun s.m_iFlashMode s.m_iFlashStep ws).2 } := by
  induction ws with
  | nil => intro s _; rfl
  | cons w ws ih =>
    intro s h
    have hw : w.1 = 0x5555 ∨ w.1 = 0x2AAA := h w (List.mem_cons_self _ _)
    have hrest : ∀ x ∈ ws, x.1 = 0x5555 ∨ x.1 = 0x2AAA :=
      fun x hx => h x (List.mem_cons_of_mem _ hx)
    have hstep : PerformWrite s w.1 w.2 = ProcessFlashAccess s w.1 w.2 := by
      unfold PerformWrite
      rw [if_pos hw]
    show writes (PerformWrite s w.1 w.2) ws = _
    rw [ih _ hrest, hstep, ProcessFlashAccess_eq]
    rfl

theorem PerformRead_eq_windowOffset (s : IratahackMemoryRule) (A : Nat) (hA : A < 0xC000)
    (h : 0x4000 ≤ A ∨ s.m_iFlashMode ≠ FlashSeqMode.FlashSeqID) :
    PerformRead s A = s.m_pFlash (windowOffset s A) := by
  unfold PerformRead windowOffset
  split_ifs <;> first
    | rfl
    | omega
    | (rcases h with h | h <;> first | omega | contradiction)

theorem flashIndex_eq (s : IratahackMemoryRule) (A : Nat) :
    flashIndex s A = toU32 (windowOffset s A) := by
  unfold flashIndex windowOffset
  split_ifs <;> rfl

theorem slotInv_reset (s : IratahackMemoryRule) : SlotInv (Reset s) := by
  simp [SlotInv, Reset, ResetFlashState]

theorem slotInv_write (s : IratahackMemoryRule) (a v : Nat) (h : SlotInv s) :
    SlotInv (PerformWrite s a v) := by
  have h3 : v &&& 3 ≤ 3 := Nat.and_le_right
  have h7 : v &&& 7 ≤ 7 := Nat.and_le_right
  obtain ⟨g0, g3, b0, b7, a0, a1, a2⟩ := h
  unfold PerformWrite
  split_ifs <;>
    simp only [SlotInv, ResetFlashState, ProcessFlashAccess, Int3.get, Int3.set] <;>
    norm_num <;>
    omega

theorem reachable_slotInv (s : IratahackMemoryRule) (h : Reachable s) : SlotInv s := by
  induction h with
  | reset s => exact slotInv_reset s
  | write s a v _ ih => exact slotInv_write s a v ih

theorem PerformWrite_erase (s : IratahackMemoryRule)
    (hmode : s.m_iFlashMode = FlashSeqMode.FlashSeqErase)
    (A : Nat) (h5 : A ≠ 0x5555) (h2 : A ≠ 0x2AAA) (hA : A < 0xC000) :
    PerformWrite s A 0x30 =
      ResetFlashState
        (if (sectorBase s A + 0x4000) % 2 ^ 32 ≤ 0x80000 then
          { s with m_pFlash := memset s.m_pFlash (sectorBase s A) 0xFF 0x4000 }
         else s) := by
  simp [PerformWrite, h5, h2, hA, hmode]

theorem PerformWrite_program (s : IratahackMemoryRule)
    (hmode : s.m_iFlashMode = FlashSeqMode.FlashSeqWrite)
    (A v : Nat) (h5 : A ≠ 0x5555) (h2 : A ≠ 0x2AAA) (hA : A < 0xC000) :
    PerformWrite s A v =
      ResetFlashState
        (if flashIndex s A < 0x80000 then
          { s with m_pFlash := store s.m_pFlash (flashIndex s A) v }
         else s) := by
  simp [PerformWrite, h5, h2, hA, hmode]

theorem LoadRamLoop_apply (count : Nat) :
    ∀ (i : Int) (file : List Nat) (flash : Buffer) (j : Int),
      LoadRamLoop count i file flash j =
        if i ≤ j ∧ j < i + (count : Int) then file.getD (j - i).toNat 0 else flash j := by
  induction count with
  | zero =>
    intro i file flash j
    have h : ¬ (i ≤ j ∧ j < i + ((0 : Nat) : Int)) := by omega
    rw [if_neg h]
    rfl
  | succ n ih =>
    intro i file flash j
    show LoadRamLoop n (i + 1) file.tail (store flash i (file.headD 0)) j = _
    rw [ih]
    by_cases hj : j = i
    · subst hj
      have h1 : ¬ (j + 1 ≤ j ∧ j < j + 1 + (n : Int)) := by omega
      have h2 : j ≤ j ∧ j < j + ((n + 1 : Nat) : Int) := by omega
      rw [if_neg h1, if_pos h2]
      cases file <;> simp [store]
    · by_cases hin : i + 1 ≤ j ∧ j < i + 1 + (n : Int)
      · have h2 : i ≤ j ∧ j < i + ((n + 1 : Nat) : Int) := by omega
        have hk : (j - i).toNat = (j - (i + 1)).toNat + 1 := by omega
        rw [if_pos hin, if_pos h2, hk]
        cases file <;> simp
      · have h2 : ¬ (i ≤ j ∧ j < i + ((n + 1 : Nat) : Int)) := by omega
        rw [if_neg hin, if_neg h2]
        simp [store, hj]

theorem Reset_eq (s : IratahackMemoryRule) :
    Reset s =
      { s with
        m_iGameSlot := 0,
        m_iMapperSlot := ⟨0, 1, 0⟩,
        m_iMapperSlotAddress := ⟨0x0000, 0x4000, 0x0000⟩,
        m_iFlashMode := FlashSeqMode.FlashSeqCount,
        m_iFlashStep := ⟨0, 0, 0⟩,
        m_pFlash := resetFlash s.m_pFlash s.m_pCartridge } := by
  unfold Reset resetFlash ResetFlashState
  by_cases h : s.m_pCartridge.GetROMSize < 0x80000
  · simp [h]
  · simp [h]

theorem resetFlash_apply (flash : Buffer) (cart : Cartridge) (hn : 0 ≤ cart.GetROMSize)
    (i : Int) (hi0 : 0 ≤ i) (hi1 : i < 0x80000) :
    resetFlash flash cart i =
      if i < min cart.GetROMSize 0x80000 then cart.GetROM i else 0xFF := by
  unfold resetFlash
  rcases lt_or_le cart.GetROMSize 0x80000 with hlt | hge
  · rw [if_pos hlt, min_eq_left (le_of_lt hlt)]
    unfold memset memcpy toSizeT
    split_ifs <;> first | rfl | omega
  · rw [if_neg (not_lt.mpr hge), min_eq_right hge]
    unfold memcpy toSizeT
    split_ifs <;> first | rfl | omega

theorem resetFlash_idem (flash : Buffer) (cart : Cartridge) :
    resetFlash (resetFlash flash cart) cart = resetFlash flash cart := by
  funext i
  unfold resetFlash
  by_cases h : cart.GetROMSize < 0x80000
  · simp only [if_pos h, memset, memcpy]
    split_ifs <;> rfl
  · simp only [if_neg h, memcpy]
    split_ifs <;> rfl

theorem LoadRam_accept (s : IratahackMemoryRule) (file : List Nat) (fileSize : Int)
    (h : ¬ (fileSize > 0 ∧ fileSize ≠ 0x80000)) :
    LoadRam s file fileSize =
      (true, { s with m_pFlash := LoadRamLoop 0x80000 0 file s.m_pFlash }) := by
  unfold LoadRam
  rw [if_neg h]

theorem reachable_writes (ws : List (Nat × Nat)) :
    ∀ s : IratahackMemoryRule, Reachable s → Reachable (writes s ws) := by
  induction ws with
  | nil => intro s h; exact h
  | cons w ws ih => intro s h; exact ih _ (Reachable.write s w.1 w.2 h)

theorem freshState_int32 : ∀ k : Nat, IsInt32 (freshState.m_iMapperSlotAddress.get k) := by
  intro k
  have h : freshState.m_iMapperSlotAddress = ⟨0x0000, 0x4000, 0x0000⟩ := rfl
  rw [h]
  unfold Int3.get IsInt32
  split_ifs <;> norm_num

/-! ## Address translation -/

/-- C1 (read translation as a function of the registers).  For every state
reachable from `Reset` and all `g`, `b`, after `PerformWrite(0xFFFE, g)` and
`PerformWrite(0xFFFF, b)` in either order: `m_iMapperSlotAddress[2]` is
`(g & 3)*0x20000 + (b & 7)*0x4000`; flash store and mode are those of before;
`PerformRead(A)` returns the flash byte at
`(g & 3)*0x20000 + (b & 7)*0x4000 + (A - 0x8000)` for `A` in [0x8000, 0xC000),
and the flash byte at `(g & 3)*0x20000 + A` for `A` in [0x4000, 0x8000) and,
when the mode is not `FlashSeqID`, for `A < 0x4000`.  Each of these offsets
lies inside the 0x80000-byte store. -/
theorem read_translation (s : IratahackMemoryRule) (_hs : Reachable s) (g b : Nat)
    (r : IratahackMemoryRule)
    (hr : r = PerformWrite (PerformWrite s 0xFFFE g) 0xFFFF b ∨
          r = PerformWrite (PerformWrite s 0xFFFF b) 0xFFFE g) :
    r.m_iMapperSlotAddress.get 2 = (((g &&& 3) * 0x20000 + (b &&& 7) * 0x4000 : Nat) : Int) ∧
    r.m_pFlash = s.m_pFlash ∧
    r.m_iFlashMode = s.m_iFlashMode ∧
    (∀ A : Nat, 0x8000 ≤ A → A < 0xC000 →
      PerformRead r A
          = r.m_pFlash (((g &&& 3) * 0x20000 + (b &&& 7) * 0x4000 + (A - 0x8000) : Nat) : Int) ∧
        (g &&& 3) * 0x20000 + (b &&& 7) * 0x4000 + (A - 0x8000) < 0x80000) ∧
    (∀ A : Nat, 0x4000 ≤ A → A < 0x8000 →
      PerformRead r A = r.m_pFlash (((g &&& 3) * 0x20000 + A : Nat) : Int) ∧
        (g &&& 3) * 0x20000 + A < 0x80000) ∧
    (∀ A : Nat, A < 0x4000 → r.m_iFlashMode ≠ FlashSeqMode.FlashSeqID →
      PerformRead r A = r.m_pFlash (((g &&& 3) * 0x20000 + A : Nat) : Int) ∧
        (g &&& 3) * 0x20000 + A < 0x80000) := by
  have hg : g &&& 3 ≤ 3 := Nat.and_le_right
  have hb : b &&& 7 ≤ 7 := Nat.and_le_right
  have haddr : r.m_iMapperSlotAddress =
      ⟨((g &&& 3 : Nat) : Int) * 2 ^ 17, ((g &&& 3 : Nat) : Int) * 2 ^ 17 + 0x4000,
        ((g &&& 3 : Nat) : Int) * 2 ^ 17 + ((b &&& 7 : Nat) : Int) * 0x4000⟩ := by
    rcases hr with h | h <;> subst h <;> simp [PerformWrite, Int3.get, Int3.set]
  have hflash : r.m_pFlash = s.m_pFlash := by
    rcases hr with h | h <;> subst h <;> simp [PerformWrite]
  have hmode : r.m_iFlashMode = s.m_iFlashMode := by
    rcases hr with h | h <;> subst h <;> simp [PerformWrite]
  refine ⟨?_, hflash, hmode, ?_, ?_, ?_⟩
  · rw [haddr]
    simp only [Int3.get]
    norm_num
  · intro A h1 h2
    have h3 : ¬ A < 0x4000 := by omega
    have h4 : ¬ A < 0x8000 := by omega
    refine ⟨?_, by omega⟩
    simp only [PerformRead, if_neg h3, if_neg h4, if_pos h2, haddr, Int3.get]
    congr 1
    norm_num
    omega
  · intro A h1 h2
    have h3 : ¬ A < 0x4000 := by omega
    refine ⟨?_, by omega⟩
    simp only [PerformRead, if_neg h3, if_pos h2, haddr, Int3.get]
    congr 1
    norm_num
    omega
  · intro A h1 h2
    refine ⟨?_, by omega⟩
    simp only [PerformRead, if_pos h1, if_neg h2, haddr, Int3.get]
    congr 1
    norm_num
    omega

/-- Instance of `read_translation` right after `Reset`, with `g = 0x06`
(game slot 2) and `b = 0x0D` (bank 5). -/
theorem read_translation_witness :
    Reachable freshState ∧
    (PerformWrite (PerformWrite freshState 0xFFFE 0x06) 0xFFFF 0x0D).m_iMapperSlotAddress.get 2
      = (((0x06 &&& 3) * 0x20000 + (0x0D &&& 7) * 0x4000 : Nat) : Int) :=
  ⟨Reachable.reset blankState,
    (read_translation freshState (Reachable.reset blankState) 0x06 0x0D _ (Or.inl rfl)).1⟩

/-! ## Software-ID mode -/

/-- C4 (Software-ID entry).  From any state whose three step counters are 0,
after the writes (0x5555,0xAA), (0x2AAA,0x55), (0x5555,0x90) the mode is
`FlashSeqID`; `PerformRead` returns 0xBF at 0x0000, 0xB7 at 0x0001 and 0xFF at
every other address below 0x4000; and at every address of windows 1 and 2 it
still returns the byte of the (unchanged) flash store at the translated offset,
taken with the (unchanged) window offsets. -/
theorem softwareID_entry (s : IratahackMemoryRule) (hsteps : s.m_iFlashStep = ⟨0, 0, 0⟩) :
    (PerformWrite (PerformWrite (PerformWrite s 0x5555 0xAA) 0x2AAA 0x55) 0x5555 0x90).m_iFlashMode
        = FlashSeqMode.FlashSeqID ∧
    PerformRead (PerformWrite (PerformWrite (PerformWrite s 0x5555 0xAA) 0x2AAA 0x55) 0x5555 0x90)
        0x0000 = 0xBF ∧
    PerformRead (PerformWrite (PerformWrite (PerformWrite s 0x5555 0xAA) 0x2AAA 0x55) 0x5555 0x90)
        0x0001 = 0xB7 ∧
    (∀ A : Nat, 2 ≤ A → A < 0x4000 →
      PerformRead (PerformWrite (PerformWrite (PerformWrite s 0x5555 0xAA) 0x2AAA 0x55) 0x5555 0x90)
        A = 0xFF) ∧
    (∀ A : Nat, 0x4000 ≤ A → A < 0x8000 →
      PerformRead (PerformWrite (PerformWrite (PerformWrite s 0x5555 0xAA) 0x2AAA 0x55) 0x5555 0x90)
        A = s.m_pFlash (((A : Int) - 0x4000) + s.m_iMapperSlotAddress.get 1)) ∧
    (∀ A : Nat, 0x8000 ≤ A → A < 0xC000 →
      PerformRead (PerformWrite (PerformWrite (PerformWrite s 0x5555 0xAA) 0x2AAA 0x55) 0x5555 0x90)
        A = s.m_pFlash (((A : Int) - 0x8000) + s.m_iMapperSlotAddress.get 2)) := by
  have hrun : PerformWrite (PerformWrite (PerformWrite s 0x5555 0xAA) 0x2AAA 0x55) 0x5555 0x90
      = { s with m_iFlashMode := FlashSeqMode.FlashSeqID, m_iFlashStep := ⟨0, 0, 0⟩ } := by
    have h := writes_cmd [(0x5555, 0xAA), (0x2AAA, 0x55), (0x5555, 0x90)] s (by decide)
    have hseq : ∀ m : FlashSeqMode,
        seqRun m ⟨0, 0, 0⟩ [(0x5555, 0xAA), (0x2AAA, 0x55), (0x5555, 0x90)]
          = (FlashSeqMode.FlashSeqID, ⟨0, 0, 0⟩) := by
      intro m
      have c1 := seqStep_of_count m ⟨0, 0, 0⟩ 0x5555 0xAA FlashSeqMode.FlashSeqCount ⟨2, 2, 2⟩
        (by decide)
      have c2 := seqStep_of_count m ⟨2, 2, 2⟩ 0x2AAA 0x55 FlashSeqMode.FlashSeqCount ⟨4, 4, 4⟩
        (by decide)
      have c3 := seqStep_of_count m ⟨4, 4, 4⟩ 0x5555 0x90 FlashSeqMode.FlashSeqID ⟨0, 0, 0⟩
        (by decide)
      simp [seqRun, c1, c2, c3]
    rw [hsteps, hseq] at h
    exact h
  rw [hrun]
  refine ⟨rfl, ?_, ?_, ?_, ?_, ?_⟩
  · simp [PerformRead]
  · simp [PerformRead]
  · intro A h2 hA
    have h0 : A ≠ 0 := by omega
    have h1 : A ≠ 1 := by omega
    simp [PerformRead, hA, h0, h1]
  · intro A h1 h2
    have h3 : ¬ A < 0x4000 := by omega
    simp [PerformRead, h3, h2]
  · intro A h1 h2
    have h3 : ¬ A < 0x4000 := by omega
    have h4 : ¬ A < 0x8000 := by omega
    simp [PerformRead, h3, h4, h2]

/-- Instance of `softwareID_entry` at the state right after `Reset`. -/
theorem softwareID_entry_witness :
    freshState.m_iFlashStep = ⟨0, 0, 0⟩ ∧
    (PerformWrite (PerformWrite (PerformWrite freshState 0x5555 0xAA) 0x2AAA 0x55)
        0x5555 0x90).m_iFlashMode = FlashSeqMode.FlashSeqID ∧
    PerformRead (PerformWrite (PerformWrite (PerformWrite freshState 0x5555 0xAA) 0x2AAA 0x55)
        0x5555 0x90) 0x0000 = 0xBF :=
  ⟨rfl, (softwareID_entry freshState rfl).1, (softwareID_entry freshState rfl).2.1⟩

/-- C5, as stated, fails at the command addresses.  In the state reached from
`Reset` by the Software-ID sequence the mode is `FlashSeqID`; the write
(0x5555, 0x00), whose address is below 0xC000, leaves the mode `FlashSeqID`
instead of resetting it, and `PerformRead 0x0000` still returns 0xBF rather
than the flash store byte at `m_iMapperSlotAddress[0]` (which is 0). -/
theorem softwareID_exit_counterexample :
    (writes freshState [(0x5555, 0xAA), (0x2AAA, 0x55), (0x5555, 0x90)]).m_iFlashMode
        = FlashSeqMode.FlashSeqID ∧
    (0x5555 : Nat) < 0xC000 ∧
    (PerformWrite (writes freshState [(0x5555, 0xAA), (0x2AAA, 0x55), (0x5555, 0x90)])
        0x5555 0x00).m_iFlashMode = FlashSeqMode.FlashSeqID ∧
    PerformRead (PerformWrite (writes freshState [(0x5555, 0xAA), (0x2AAA, 0x55), (0x5555, 0x90)])
        0x5555 0x00) 0x0000 = 0xBF ∧
    (PerformWrite (writes freshState [(0x5555, 0xAA), (0x2AAA, 0x55), (0x5555, 0x90)])
        0x5555 0x00).m_pFlash
      ((PerformWrite (writes freshState [(0x5555, 0xAA), (0x2AAA, 0x55), (0x5555, 0x90)])
        0x5555 0x00).m_iMapperSlotAddress.get 0) = 0 := by
  refine ⟨by decide, by decide, by decide, by decide, by decide⟩

/-- C5 (Software-ID exit), amended: the consuming write is any write below
0xC000 other than to the command addresses 0x5555 and 0x2AAA.  For every state
in mode `FlashSeqID` such a write leaves the flash store (and the window
offsets) unchanged, resets the mode to none and the step counters to 0, and
afterwards `PerformRead` at 0x0000 and 0x0001 returns the flash bytes at
`m_iMapperSlotAddress[0]` and `m_iMapperSlotAddress[0] + 1`. -/
theorem softwareID_exit (s : IratahackMemoryRule)
    (hmode : s.m_iFlashMode = FlashSeqMode.FlashSeqID)
    (A v : Nat) (hA : A < 0xC000) (h5 : A ≠ 0x5555) (h2 : A ≠ 0x2AAA) :
    (PerformWrite s A v).m_pFlash = s.m_pFlash ∧
    (PerformWrite s A v).m_iMapperSlotAddress = s.m_iMapperSlotAddress ∧
    (PerformWrite s A v).m_iFlashMode = FlashSeqMode.FlashSeqCount ∧
    (PerformWrite s A v).m_iFlashStep = ⟨0, 0, 0⟩ ∧
    PerformRead (PerformWrite s A v) 0x0000 = s.m_pFlash (s.m_iMapperSlotAddress.get 0) ∧
    PerformRead (PerformWrite s A v) 0x0001 = s.m_pFlash (s.m_iMapperSlotAddress.get 0 + 1) := by
  have hw : PerformWrite s A v = ResetFlashState s := by
    simp [PerformWrite, h5, h2, hA, hmode]
  rw [hw]
  refine ⟨rfl, rfl, rfl, rfl, ?_, ?_⟩
  · simp [PerformRead, ResetFlashState]
  · simp [PerformRead, ResetFlashState, add_comm]

/-- Instance of `softwareID_exit`: leaving Software-ID mode by a write to
0x0000 in the state reached from `Reset` by the Software-ID sequence. -/
theorem softwareID_exit_witness :
    (writes freshState [(0x5555, 0xAA), (0x2AAA, 0x55), (0x5555, 0x90)]).m_iFlashMode
        = FlashSeqMode.FlashSeqID ∧
    (0 : Nat) < 0xC000 ∧ (0 : Nat) ≠ 0x5555 ∧ (0 : Nat) ≠ 0x2AAA ∧
    (PerformWrite (writes freshState [(0x5555, 0xAA), (0x2AAA, 0x55), (0x5555, 0x90)])
        0 0xF0).m_iFlashMode = FlashSeqMode.FlashSeqCount :=
  ⟨by decide, by decide, by decide, by decide,
    (softwareID_exit (writes freshState [(0x5555, 0xAA), (0x2AAA, 0x55), (0x5555, 0x90)])
      (by decide) 0 0xF0 (by decide) (by decide) (by decide)).2.2.1⟩

/-! ## Mode consumption -/

/-- C6 (SectorErase consumption).  In a state reachable from `Reset` whose
mode is `FlashSeqErase`, a write of `v` to an address `A` in [0x8000, 0xC000):
if `v = 0x30`, sets the bytes at `m_iMapperSlotAddress[2] ≤ i <
m_iMapperSlotAddress[2] + 0x4000` to 0xFF and leaves every other byte
unchanged; if `v ≠ 0x30`, leaves the whole store unchanged; in both cases the
mode afterwards is none and the three step counters are 0.  The erased range
lies inside the 0x80000-byte store. -/
theorem sectorErase_consumption (s : IratahackMemoryRule) (hs : Reachable s)
    (hmode : s.m_iFlashMode = FlashSeqMode.FlashSeqErase)
    (A v : Nat) (h1 : 0x8000 ≤ A) (h2 : A < 0xC000) :
    (v = 0x30 → ∀ i : Int,
      (PerformWrite s A v).m_pFlash i =
        if s.m_iMapperSlotAddress.get 2 ≤ i ∧ i < s.m_iMapperSlotAddress.get 2 + 0x4000
        then 0xFF else s.m_pFlash i) ∧
    (v ≠ 0x30 → ∀ i : Int, (PerformWrite s A v).m_pFlash i = s.m_pFlash i) ∧
    (PerformWrite s A v).m_iFlashMode = FlashSeqMode.FlashSeqCount ∧
    (PerformWrite s A v).m_iFlashStep = ⟨0, 0, 0⟩ ∧
    0 ≤ s.m_iMapperSlotAddress.get 2 ∧ s.m_iMapperSlotAddress.get 2 + 0x4000 ≤ 0x80000 := by
  obtain ⟨g0, g3, b0, b7, _, _, a2⟩ := reachable_slotInv s hs
  have hA5 : ¬ (A = 0x5555 ∨ A = 0x2AAA) := by omega
  have hget : s.m_iMapperSlotAddress.get 2 = s.m_iMapperSlotAddress.x2 := rfl
  have hlt : toU32 (s.m_iMapperSlotAddress.get 2 + ((A : Int) - 0x8000)) < 2 ^ 32 := by
    unfold toU32
    omega
  have hbase : (sectorBase s A : Int) = s.m_iMapperSlotAddress.get 2 := by
    unfold sectorBase
    rw [and_mask_eq _ hlt]
    unfold toU32
    omega
  have hchk : (sectorBase s A + 0x4000) % 2 ^ 32 ≤ 0x80000 := by omega
  have hw : PerformWrite s A v =
      ResetFlashState
        (if v = 0x30 then
          { s with m_pFlash := memset s.m_pFlash (sectorBase s A) 0xFF 0x4000 }
         else s) := by
    simp only [PerformWrite, if_neg hA5, if_pos h2, hmode, if_pos hchk]
    simp
  refine ⟨?_, ?_, ?_, ?_, by omega, by omega⟩
  · intro hv i
    rw [hw, if_pos hv]
    simp only [ResetFlashState, memset, hbase]
    rfl
  · intro hv i
    rw [hw, if_neg hv]
    rfl
  · rw [hw]
    rfl
  · rw [hw]
    rfl

/-- C7 (ByteProgram consumption).  In a state reachable from `Reset` whose
mode is `FlashSeqWrite`, a write of `v` to an address `A < 0xC000` other than
0x5555 and 0x2AAA stores `v` at the translated offset of `A` (the offset the
read path uses, which lies inside the store), leaves every other byte
unchanged, resets the mode to none, and a following `PerformRead(A)` returns
`v`. -/
theorem byteProgram_consumption (s : IratahackMemoryRule) (hs : Reachable s)
    (hmode : s.m_iFlashMode = FlashSeqMode.FlashSeqWrite)
    (A v : Nat) (hA : A < 0xC000) (h5 : A ≠ 0x5555) (h2 : A ≠ 0x2AAA) :
    (PerformWrite s A v).m_pFlash (windowOffset s A) = v ∧
    (∀ i : Int, i ≠ windowOffset s A → (PerformWrite s A v).m_pFlash i = s.m_pFlash i) ∧
    (PerformWrite s A v).m_iFlashMode = FlashSeqMode.FlashSeqCount ∧
    PerformRead (PerformWrite s A v) A = v ∧
    windowOffset s A =
      (if A < 0x4000 then (A : Int) + s.m_iMapperSlotAddress.get 0
       else if A < 0x8000 then ((A : Int) - 0x4000) + s.m_iMapperSlotAddress.get 1
       else ((A : Int) - 0x8000) + s.m_iMapperSlotAddress.get 2) ∧
    0 ≤ windowOffset s A ∧ windowOffset s A < 0x80000 := by
  obtain ⟨g0, g3, b0, b7, a0, a1, a2⟩ := reachable_slotInv s hs
  have hA5 : ¬ (A = 0x5555 ∨ A = 0x2AAA) := by omega
  have hrange : 0 ≤ windowOffset s A ∧ windowOffset s A < 0x80000 := by
    unfold windowOffset
    simp only [Int3.get]
    split_ifs <;> omega
  have hidx : (flashIndex s A : Int) = windowOffset s A := by
    rw [flashIndex_eq]
    unfold toU32
    omega
  have hchk : flashIndex s A < 0x80000 := by omega
  have hne : s.m_iFlashMode ≠ FlashSeqMode.FlashSeqID := by rw [hmode]; decide
  have hne2 : s.m_iFlashMode ≠ FlashSeqMode.FlashSeqErase := by rw [hmode]; decide
  have hw : PerformWrite s A v =
      ResetFlashState { s with m_pFlash := store s.m_pFlash (windowOffset s A) v } := by
    simp only [PerformWrite, if_neg hA5, if_pos hA, if_neg hne, if_neg hne2, hmode, if_pos hchk,
      hidx]
    simp
  refine ⟨?_, ?_, ?_, ?_, rfl, hrange.1, hrange.2⟩
  · rw [hw]
    simp [ResetFlashState, store]
  · intro i hi
    rw [hw]
    simp [ResetFlashState, store, hi]
  · rw [hw]
    rfl
  · rw [hw, PerformRead_eq_windowOffset _ A hA (Or.inr (by simp [ResetFlashState]))]
    have hoff : windowOffset
        (ResetFlashState { s with m_pFlash := store s.m_pFlash (windowOffset s A) v }) A
          = windowOffset s A := rfl
    rw [hoff]
    simp [ResetFlashState, store]

/-- Instance of `sectorErase_consumption`: the state reached from `Reset` by
the five-pair sequence is in mode `FlashSeqErase`; the write (0x9234, 0x30)
consumes it. -/
theorem sectorErase_consumption_witness :
    Reachable (writes freshState
      [(0x5555, 0xAA), (0x2AAA, 0x55), (0x5555, 0x80), (0x5555, 0xAA), (0x2AAA, 0x55)]) ∧
    (writes freshState
      [(0x5555, 0xAA), (0x2AAA, 0x55), (0x5555, 0x80), (0x5555, 0xAA), (0x2AAA, 0x55)]).m_iFlashMode
        = FlashSeqMode.FlashSeqErase ∧
    (0x8000 : Nat) ≤ 0x9234 ∧ (0x9234 : Nat) < 0xC000 ∧
    (PerformWrite (writes freshState
      [(0x5555, 0xAA), (0x2AAA, 0x55), (0x5555, 0x80), (0x5555, 0xAA), (0x2AAA, 0x55)])
        0x9234 0x30).m_iFlashMode = FlashSeqMode.FlashSeqCount :=
  ⟨reachable_writes _ _ (Reachable.reset blankState), by decide, by decide, by decide,
    (sectorErase_consumption _ (reachable_writes _ _ (Reachable.reset blankState)) (by decide)
      0x9234 0x30 (by decide) (by decide)).2.2.1⟩

/-- Instance of `byteProgram_consumption`: the state reached from `Reset` by
the three-pair sequence ending in 0xA0 is in mode `FlashSeqWrite`; the write
(0x4002, 0x5A) consumes it and is read back. -/
theorem byteProgram_consumption_witness :
    Reachable (writes freshState [(0x5555, 0xAA), (0x2AAA, 0x55), (0x5555, 0xA0)]) ∧
    (writes freshState [(0x5555, 0xAA), (0x2AAA, 0x55), (0x5555, 0xA0)]).m_iFlashMode
        = FlashSeqMode.FlashSeqWrite ∧
    (0x4002 : Nat) < 0xC000 ∧ (0x4002 : Nat) ≠ 0x5555 ∧ (0x4002 : Nat) ≠ 0x2AAA ∧
    PerformRead (PerformWrite (writes freshState [(0x5555, 0xAA), (0x2AAA, 0x55), (0x5555, 0xA0)])
        0x4002 0x5A) 0x4002 = 0x5A :=
  ⟨reachable_writes _ _ (Reachable.reset blankState), by decide, by decide, by decide, by decide,
    (byteProgram_consumption _ (reachable_writes _ _ (Reachable.reset blankState)) (by decide)
      0x4002 0x5A (by decide) (by decide) (by decide)).2.2.2.1⟩

/-! ## Command sequences end to end -/

/-- C2, as stated, fails: in the code the three-pair sequence ending in 0xA0 is
row `FlashSeqWrite` of `kFlashSeqs` and arms byte programming, not sector erase.
Right after `Reset` (mode none, step counters 0, ROM of zero bytes), after
(0x5555,0xAA), (0x2AAA,0x55), (0x5555,0xA0) the mode is `FlashSeqWrite`, and
the write (0x8000, 0x30), whose window-2 offset is 0, stores 0x30 at offset 0
and leaves offset 1 at 0: the sector [0, 0x4000) is not filled with 0xFF. -/
theorem sectorErase_end_to_end_counterexample :
    freshState.m_iFlashMode = FlashSeqMode.FlashSeqCount ∧
    freshState.m_iFlashStep = ⟨0, 0, 0⟩ ∧
    freshState.m_iMapperSlotAddress.get 2 + (((0x8000 : Nat) : Int) - 0x8000) = 0 ∧
    (writes freshState [(0x5555, 0xAA), (0x2AAA, 0x55), (0x5555, 0xA0)]).m_iFlashMode
      = FlashSeqMode.FlashSeqWrite ∧
    (writes freshState
      [(0x5555, 0xAA), (0x2AAA, 0x55), (0x5555, 0xA0), (0x8000, 0x30)]).m_pFlash 0 = 0x30 ∧
    (writes freshState
      [(0x5555, 0xAA), (0x2AAA, 0x55), (0x5555, 0xA0), (0x8000, 0x30)]).m_pFlash 1 = 0 ∧
    ¬ (∀ i : Int, 0 ≤ i → i < 0x4000 →
        (writes freshState
          [(0x5555, 0xAA), (0x2AAA, 0x55), (0x5555, 0xA0), (0x8000, 0x30)]).m_pFlash i = 0xFF) := by
  refine ⟨by decide, by decide, by decide, by decide, by decide, by decide, ?_⟩
  intro h
  exact absurd (h 1 (by decide) (by decide)) (by decide)

/-- C2 (sector erase end to end), amended: the sequence that arms the erase is
the five-pair one, (0x5555,0xAA), (0x2AAA,0x55), (0x5555,0x80), (0x5555,0xAA),
(0x2AAA,0x55) (row `FlashSeqErase` of `kFlashSeqs`).  Starting from a state
with mode none and all three step counters 0 (whose `m_iMapperSlotAddress[2]`
holds an `int` value), writing that sequence and then 0x30 to an address `A`
in [0x8000, 0xC000) sets every byte of the flash store in the 16KB-aligned
sector containing the offset `m_iMapperSlotAddress[2] + (A - 0x8000)` to 0xFF
and leaves every other byte of the store unchanged; the mode afterwards is
none. -/
theorem sectorErase_end_to_end (s : IratahackMemoryRule)
    (hmode : s.m_iFlashMode = FlashSeqMode.FlashSeqCount)
    (hsteps : s.m_iFlashStep = ⟨0, 0, 0⟩)
    (hint : IsInt32 (s.m_iMapperSlotAddress.get 2))
    (A : Nat) (h1 : 0x8000 ≤ A) (h2 : A < 0xC000) :
    (∀ i : Int, 0 ≤ i → i < 0x80000 →
      (writes s [(0x5555, 0xAA), (0x2AAA, 0x55), (0x5555, 0x80), (0x5555, 0xAA), (0x2AAA, 0x55),
          (A, 0x30)]).m_pFlash i =
        if (s.m_iMapperSlotAddress.get 2 + ((A : Int) - 0x8000)) / 0x4000 * 0x4000 ≤ i ∧
            i < (s.m_iMapperSlotAddress.get 2 + ((A : Int) - 0x8000)) / 0x4000 * 0x4000 + 0x4000
        then 0xFF else s.m_pFlash i) ∧
    (writes s [(0x5555, 0xAA), (0x2AAA, 0x55), (0x5555, 0x80), (0x5555, 0xAA), (0x2AAA, 0x55),
        (A, 0x30)]).m_iFlashMode = FlashSeqMode.FlashSeqCount := by
  have hrun : writes s [(0x5555, 0xAA), (0x2AAA, 0x55), (0x5555, 0x80), (0x5555, 0xAA),
      (0x2AAA, 0x55)]
      = { s with m_iFlashMode := FlashSeqMode.FlashSeqErase, m_iFlashStep := ⟨4, 0, 4⟩ } := by
    have h := writes_cmd
      [(0x5555, 0xAA), (0x2AAA, 0x55), (0x5555, 0x80), (0x5555, 0xAA), (0x2AAA, 0x55)] s
      (by decide)
    have hseq : seqRun FlashSeqMode.FlashSeqCount ⟨0, 0, 0⟩
        [(0x5555, 0xAA), (0x2AAA, 0x55), (0x5555, 0x80), (0x5555, 0xAA), (0x2AAA, 0x55)]
          = (FlashSeqMode.FlashSeqErase, ⟨4, 0, 4⟩) := by decide
    rw [hmode, hsteps, hseq] at h
    exact h
  have hsplit : writes s [(0x5555, 0xAA), (0x2AAA, 0x55), (0x5555, 0x80), (0x5555, 0xAA),
      (0x2AAA, 0x55), (A, 0x30)]
      = PerformWrite (writes s [(0x5555, 0xAA), (0x2AAA, 0x55), (0x5555, 0x80), (0x5555, 0xAA),
          (0x2AAA, 0x55)]) A 0x30 := rfl
  obtain ⟨hlo, hhi⟩ := hint
  norm_num at hlo hhi
  have hlt : toU32 (s.m_iMapperSlotAddress.get 2 + ((A : Int) - 0x8000)) < 2 ^ 32 := by
    unfold toU32
    omega
  have hsb : sectorBase { s with m_iFlashMode := FlashSeqMode.FlashSeqErase,
                                 m_iFlashStep := ⟨4, 0, 4⟩ } A
      = ((s.m_iMapperSlotAddress.get 2 + ((A : Int) - 0x8000)) % 2 ^ 32).toNat
          / 0x4000 * 0x4000 := by
    unfold sectorBase
    exact and_mask_eq _ hlt
  rw [hsplit, hrun, PerformWrite_erase _ rfl A (by omega) (by omega) h2, hsb]
  refine ⟨?_, rfl⟩
  intro i hi0 hi1
  clear hsb hlt hrun hsplit
  by_cases hc : (((s.m_iMapperSlotAddress.get 2 + ((A : Int) - 0x8000)) % 2 ^ 32).toNat
      / 0x4000 * 0x4000 + 0x4000) % 2 ^ 32 ≤ 0x80000
  · rw [if_pos hc]
    show memset s.m_pFlash _ 0xFF 0x4000 i = _
    unfold memset
    split_ifs <;> first | rfl | omega
  · rw [if_neg hc]
    show s.m_pFlash i = _
    split_ifs <;> first | rfl | omega

/-- Instance of `sectorErase_end_to_end` right after `Reset`, erasing through
address 0x9234. -/
theorem sectorErase_end_to_end_witness :
    freshState.m_iFlashMode = FlashSeqMode.FlashSeqCount ∧
    freshState.m_iFlashStep = ⟨0, 0, 0⟩ ∧
    IsInt32 (freshState.m_iMapperSlotAddress.get 2) ∧
    (0x8000 : Nat) ≤ 0x9234 ∧ (0x9234 : Nat) < 0xC000 ∧
    (writes freshState [(0x5555, 0xAA), (0x2AAA, 0x55), (0x5555, 0x80), (0x5555, 0xAA),
        (0x2AAA, 0x55), (0x9234, 0x30)]).m_iFlashMode = FlashSeqMode.FlashSeqCount :=
  ⟨rfl, rfl, ⟨by decide, by decide⟩, by decide, by decide,
    (sectorErase_end_to_end freshState rfl rfl ⟨by decide, by decide⟩ 0x9234
      (by decide) (by decide)).2⟩

/-- C3, as stated, fails, for two separate reasons.  (a) In the code the
five-pair sequence is row `FlashSeqErase` of `kFlashSeqs` and arms sector
erase: right after `Reset` (ROM of zero bytes), after the five pairs the mode
is `FlashSeqErase`, and the data write (0x8000, 0x12) leaves the byte at the
translated offset of 0x8000 at 0.  (b) A write to a command address is never
a data write: after the five pairs, and also after the three-pair sequence
ending in 0xA0 that does arm byte programming, the write (0x5555, 0x12) leaves
the byte at the translated offset of 0x5555 at 0. -/
theorem byteProgram_end_to_end_counterexample :
    freshState.m_iFlashMode = FlashSeqMode.FlashSeqCount ∧
    freshState.m_iFlashStep = ⟨0, 0, 0⟩ ∧
    (writes freshState
      [(0x5555, 0xAA), (0x2AAA, 0x55), (0x5555, 0x80), (0x5555, 0xAA), (0x2AAA, 0x55)]).m_iFlashMode
        = FlashSeqMode.FlashSeqErase ∧
    windowOffset freshState 0x8000 = 0 ∧
    (writes freshState
      [(0x5555, 0xAA), (0x2AAA, 0x55), (0x5555, 0x80), (0x5555, 0xAA), (0x2AAA, 0x55),
        (0x8000, 0x12)]).m_pFlash (windowOffset freshState 0x8000) = 0 ∧
    (writes freshState
      [(0x5555, 0xAA), (0x2AAA, 0x55), (0x5555, 0x80), (0x5555, 0xAA), (0x2AAA, 0x55),
        (0x8000, 0x12)]).m_pFlash (windowOffset freshState 0x8000) ≠ 0x12 ∧
    (writes freshState
      [(0x5555, 0xAA), (0x2AAA, 0x55), (0x5555, 0x80), (0x5555, 0xAA), (0x2AAA, 0x55),
        (0x5555, 0x12)]).m_pFlash (windowOffset freshState 0x5555) = 0 ∧
    (writes freshState
      [(0x5555, 0xAA), (0x2AAA, 0x55), (0x5555, 0xA0)]).m_iFlashMode
        = FlashSeqMode.FlashSeqWrite ∧
    (writes freshState
      [(0x5555, 0xAA), (0x2AAA, 0x55), (0x5555, 0xA0),
        (0x5555, 0x12)]).m_pFlash (windowOffset freshState 0x5555) = 0 := by
  refine ⟨by decide, by decide, by decide, by decide, by decide, by decide, by decide,
    by decide, by decide⟩

/-- C3 (byte program end to end), amended: the sequence that arms byte
programming is the three-pair one, (0x5555,0xAA), (0x2AAA,0x55), (0x5555,0xA0)
(row `FlashSeqWrite` of `kFlashSeqs`), and the data write goes to an address
`A` below 0xC000 other than the command addresses 0x5555 and 0x2AAA.  Starting
from a state with mode none and all three step counters 0 (whose window
offsets hold `int` values), that sequence followed by the write `(A, v)`
makes the flash store byte at the translated offset of `A` equal to `v` and
leaves every other byte of the store unchanged; the mode afterwards is none. -/
theorem byteProgram_end_to_end (s : IratahackMemoryRule)
    (hmode : s.m_iFlashMode = FlashSeqMode.FlashSeqCount)
    (hsteps : s.m_iFlashStep = ⟨0, 0, 0⟩)
    (hint : ∀ k : Nat, IsInt32 (s.m_iMapperSlotAddress.get k))
    (A v : Nat) (hA : A < 0xC000) (h5 : A ≠ 0x5555) (h2 : A ≠ 0x2AAA) :
    (∀ i : Int, 0 ≤ i → i < 0x80000 →
      (writes s [(0x5555, 0xAA), (0x2AAA, 0x55), (0x5555, 0xA0), (A, v)]).m_pFlash i =
        if i = windowOffset s A then v else s.m_pFlash i) ∧
    (writes s [(0x5555, 0xAA), (0x2AAA, 0x55), (0x5555, 0xA0), (A, v)]).m_iFlashMode
      = FlashSeqMode.FlashSeqCount := by
  have hrun : writes s [(0x5555, 0xAA), (0x2AAA, 0x55), (0x5555, 0xA0)]
      = { s with m_iFlashMode := FlashSeqMode.FlashSeqWrite, m_iFlashStep := ⟨0, 0, 0⟩ } := by
    have h := writes_cmd [(0x5555, 0xAA), (0x2AAA, 0x55), (0x5555, 0xA0)] s (by decide)
    have hseq : seqRun FlashSeqMode.FlashSeqCount ⟨0, 0, 0⟩
        [(0x5555, 0xAA), (0x2AAA, 0x55), (0x5555, 0xA0)]
          = (FlashSeqMode.FlashSeqWrite, ⟨0, 0, 0⟩) := by decide
    rw [hmode, hsteps, hseq] at h
    exact h
  have hsplit : writes s [(0x5555, 0xAA), (0x2AAA, 0x55), (0x5555, 0xA0), (A, v)]
      = PerformWrite (writes s [(0x5555, 0xAA), (0x2AAA, 0x55), (0x5555, 0xA0)]) A v := rfl
  have hoff : windowOffset { s with m_iFlashMode := FlashSeqMode.FlashSeqWrite,
                                    m_iFlashStep := ⟨0, 0, 0⟩ } A = windowOffset s A := rfl
  have hrange : -2 ^ 31 ≤ windowOffset s A ∧ windowOffset s A < 2 ^ 31 + 0xC000 := by
    have h0 := hint 0
    have h1 := hint 1
    have h2 := hint 2
    unfold IsInt32 at h0 h1 h2
    unfold windowOffset
    norm_num at h0 h1 h2 ⊢
    split_ifs <;> omega
  obtain ⟨hlo, hhi⟩ := hrange
  norm_num at hlo hhi
  rw [hsplit, hrun, PerformWrite_program _ rfl A v h5 h2 hA, flashIndex_eq, hoff]
  refine ⟨?_, rfl⟩
  intro i hi0 hi1
  clear hrun hsplit hoff
  unfold toU32
  by_cases hc : ((windowOffset s A) % 2 ^ 32).toNat < 0x80000
  · rw [if_pos hc]
    show store s.m_pFlash _ v i = _
    unfold store
    split_ifs <;> first | rfl | omega
  · rw [if_neg hc]
    show s.m_pFlash i = _
    split_ifs <;> first | rfl | omega

/-- Instance of `byteProgram_end_to_end` right after `Reset`, programming 0x5A
through address 0x4002. -/
theorem byteProgram_end_to_end_witness :
    freshState.m_iFlashMode = FlashSeqMode.FlashSeqCount ∧
    freshState.m_iFlashStep = ⟨0, 0, 0⟩ ∧
    (∀ k : Nat, IsInt32 (freshState.m_iMapperSlotAddress.get k)) ∧
    (0x4002 : Nat) < 0xC000 ∧ (0x4002 : Nat) ≠ 0x5555 ∧ (0x4002 : Nat) ≠ 0x2AAA ∧
    (writes freshState [(0x5555, 0xAA), (0x2AAA, 0x55), (0x5555, 0xA0),
        (0x4002, 0x5A)]).m_iFlashMode = FlashSeqMode.FlashSeqCount :=
  ⟨rfl, rfl, freshState_int32, by decide, by decide, by decide,
    (byteProgram_end_to_end freshState rfl rfl freshState_int32 0x4002 0x5A
      (by decide) (by decide) (by decide)).2⟩

/-! ## Frame of the flash store -/

/-- C8.  A `PerformWrite` at any address with any value leaves the flash
store unchanged when the mode before the write is none (`FlashSeqCount`) or
`FlashSeqID`. -/
theorem flash_readonly_outside_program_erase (s : IratahackMemoryRule) (address value : Nat)
    (hmode : s.m_iFlashMode = FlashSeqMode.FlashSeqCount ∨
      s.m_iFlashMode = FlashSeqMode.FlashSeqID) :
    (PerformWrite s address value).m_pFlash = s.m_pFlash := by
  unfold PerformWrite
  split_ifs <;> first
    | rfl
    | (rcases hmode with h | h <;> simp_all)

/-- Instance of `flash_readonly_outside_program_erase` right after `Reset`. -/
theorem flash_readonly_outside_program_erase_witness :
    (freshState.m_iFlashMode = FlashSeqMode.FlashSeqCount ∨
      freshState.m_iFlashMode = FlashSeqMode.FlashSeqID) ∧
    (PerformWrite freshState 0x8000 0x30).m_pFlash = freshState.m_pFlash :=
  ⟨Or.inl rfl, flash_readonly_outside_program_erase freshState 0x8000 0x30 (Or.inl rfl)⟩

/-! ## Reset -/

/-- C9 (Reset postcondition and idempotence).  For every prior state whose
cartridge reports a ROM size `n ≥ 0`: after `Reset` the flash store holds the
ROM bytes at `0 ≤ i < min n 0x80000` and 0xFF at `min n 0x80000 ≤ i < 0x80000`;
`m_iGameSlot = 0`, `m_iMapperSlot = [0, 1, 0]`,
`m_iMapperSlotAddress = [0, 0x4000, 0]`, the mode is none and the three step
counters are 0; every other prior state with the same cartridge gives the same
store and registers; and `Reset` applied twice equals `Reset` applied once. -/
theorem reset_postcondition (s : IratahackMemoryRule) (hn : 0 ≤ s.m_pCartridge.GetROMSize) :
    (∀ i : Int, 0 ≤ i → i < min s.m_pCartridge.GetROMSize 0x80000 →
      (Reset s).m_pFlash i = s.m_pCartridge.GetROM i) ∧
    (∀ i : Int, min s.m_pCartridge.GetROMSize 0x80000 ≤ i → i < 0x80000 →
      (Reset s).m_pFlash i = 0xFF) ∧
    (Reset s).m_iGameSlot = 0 ∧
    (Reset s).m_iMapperSlot = ⟨0, 1, 0⟩ ∧
    (Reset s).m_iMapperSlotAddress = ⟨0, 0x4000, 0⟩ ∧
    (Reset s).m_iFlashMode = FlashSeqMode.FlashSeqCount ∧
    (Reset s).m_iFlashStep = ⟨0, 0, 0⟩ ∧
    (∀ t : IratahackMemoryRule, t.m_pCartridge = s.m_pCartridge →
      (∀ i : Int, 0 ≤ i → i < 0x80000 → (Reset t).m_pFlash i = (Reset s).m_pFlash i) ∧
      (Reset t).m_iGameSlot = (Reset s).m_iGameSlot ∧
      (Reset t).m_iMapperSlot = (Reset s).m_iMapperSlot ∧
      (Reset t).m_iMapperSlotAddress = (Reset s).m_iMapperSlotAddress ∧
      (Reset t).m_iFlashMode = (Reset s).m_iFlashMode ∧
      (Reset t).m_iFlashStep = (Reset s).m_iFlashStep) ∧
    Reset (Reset s) = Reset s := by
  have hflash : ∀ (t : IratahackMemoryRule), t.m_pCartridge = s.m_pCartridge →
      ∀ i : Int, 0 ≤ i → i < 0x80000 →
        (Reset t).m_pFlash i =
          if i < min s.m_pCartridge.GetROMSize 0x80000 then s.m_pCartridge.GetROM i else 0xFF := by
    intro t ht i hi0 hi1
    rw [Reset_eq]
    show resetFlash t.m_pFlash t.m_pCartridge i = _
    rw [ht]
    exact resetFlash_apply _ _ hn i hi0 hi1
  refine ⟨?_, ?_, rfl, rfl, rfl, rfl, rfl, ?_, ?_⟩
  · intro i hi0 hi1
    have hi2 : i < 0x80000 := lt_of_lt_of_le hi1 (min_le_right _ _)
    rw [hflash s rfl i hi0 hi2, if_pos hi1]
  · intro i hi0 hi1
    have hi2 : 0 ≤ i := le_trans (le_min hn (by norm_num)) hi0
    rw [hflash s rfl i hi2 hi1, if_neg (not_lt.mpr hi0)]
  · intro t ht
    refine ⟨?_, rfl, rfl, rfl, rfl, rfl⟩
    intro i hi0 hi1
    rw [hflash t ht i hi0 hi1, hflash s rfl i hi0 hi1]
  · rw [Reset_eq (Reset s), Reset_eq s]
    simp only [resetFlash_idem]

/-- Instance of `reset_postcondition`: the 512KB zero ROM of `zeroCartridge`. -/
theorem reset_postcondition_witness :
    0 ≤ blankState.m_pCartridge.GetROMSize ∧ Reset (Reset blankState) = Reset blankState :=
  ⟨by decide, (reset_postcondition blankState (by decide)).2.2.2.2.2.2.2.2⟩

/-! ## LoadRam -/

/-- C10, as stated, fails for negative sizes: the size check of `LoadRam` is
`fileSize > 0 && fileSize != 0x80000`, so a reported size of -1 (neither 0 nor
0x80000) is accepted.  Right after `Reset` (flash store of zero bytes), with a
stream holding the single byte 1, `LoadRam` returns true and the store byte 0
changes from 0 to 1. -/
theorem loadRam_validation_counterexample :
    ((-1 : Int) ≠ 0 ∧ (-1 : Int) ≠ 0x80000) ∧
    (LoadRam freshState [1] (-1)).1 = true ∧
    freshState.m_pFlash 0 = 0 ∧
    (LoadRam freshState [1] (-1)).2.m_pFlash 0 = 1 := by
  have hc : ¬ ((-1 : Int) > 0 ∧ (-1 : Int) ≠ 0x80000) := by decide
  rw [LoadRam_accept _ _ _ hc]
  refine ⟨by decide, rfl, by decide, ?_⟩
  simp only []
  rw [LoadRamLoop_apply]
  simp

/-- C10 (LoadRam validation), amended: the rejected sizes are the positive
ones other than 0x80000.  For every state, stream and reported size `s`: if
`s > 0` and `s ≠ 0x80000`, `LoadRam` returns false and leaves the state (so the
flash store) unchanged; if `s = 0x80000` and the stream holds at least 0x80000
bytes, `LoadRam` returns true and the flash store equals the first 0x80000
bytes of the stream, in order. -/
theorem loadRam_validation (s : IratahackMemoryRule) (file : List Nat) (fileSize : Int) :
    (0 < fileSize → fileSize ≠ 0x80000 → LoadRam s file fileSize = (false, s)) ∧
    (fileSize = 0x80000 → 0x80000 ≤ file.length →
      (LoadRam s file fileSize).1 = true ∧
      ∀ k : Nat, k < 0x80000 →
        file[k]? = some ((LoadRam s file fileSize).2.m_pFlash (k : Int))) := by
  constructor
  · intro h1 h2
    unfold LoadRam
    rw [if_pos ⟨h1, h2⟩]
  · intro h1 h2
    subst h1
    have hc : ¬ ((0x80000 : Int) > 0 ∧ (0x80000 : Int) ≠ 0x80000) := by decide
    rw [LoadRam_accept _ _ _ hc]
    refine ⟨rfl, ?_⟩
    intro k hk
    simp only []
    have hin : (0 : Int) ≤ (k : Int) ∧ (k : Int) < 0 + ((0x80000 : Nat) : Int) := by omega
    have hk2 : k < file.length := by omega
    rw [LoadRamLoop_apply, if_pos hin]
    simp [List.getD, List.getElem?_eq_getElem hk2]

/-- Instance of `loadRam_validation`: a reported size of 5 is rejected; a
stream of 0x80000 bytes 0x42 with reported size 0x80000 is accepted. -/
theorem loadRam_validation_witness :
    ((0 : Int) < 5 ∧ (5 : Int) ≠ 0x80000 ∧ LoadRam freshState [1, 2, 3, 4, 5] 5 = (false, freshState)) ∧
    ((0x80000 : Int) = 0x80000 ∧ 0x80000 ≤ (List.replicate 0x80000 0x42).length ∧
      (LoadRam freshState (List.replicate 0x80000 0x42) 0x80000).1 = true) :=
  ⟨⟨by decide, by decide,
      (loadRam_validation freshState [1, 2, 3, 4, 5] 5).1 (by decide) (by decide)⟩,
    ⟨rfl, le_of_eq (List.length_replicate _ _).symm,
      ((loadRam_validation freshState (List.replicate 0x80000 0x42) 0x80000).2 rfl
        (le_of_eq (List.length_replicate _ _).symm)).1⟩⟩

/-! ## The command sequencer -/

theorem advanceInOrder_code (s : IratahackMemoryRule) (a v : Nat) :
    (ProcessFlashAccess s a v).m_iFlashMode =
        (advanceInOrder
          [FlashSeqMode.FlashSeqWrite, FlashSeqMode.FlashSeqErase, FlashSeqMode.FlashSeqID]
          s.m_iFlashMode s.m_iFlashStep a v).1 ∧
    (ProcessFlashAccess s a v).m_iFlashStep =
        (advanceInOrder
          [FlashSeqMode.FlashSeqWrite, FlashSeqMode.FlashSeqErase, FlashSeqMode.FlashSeqID]
          s.m_iFlashMode s.m_iFlashStep a v).2 :=
  ⟨rfl, rfl⟩

/-- What one `AdvanceSequence` call does to the ID track (row 0), whatever the
other two counters are. -/
theorem advance_ID (steps : Int3) (a v : Nat)
    (h : steps.x0 = 0 ∨ steps.x0 = 2 ∨ steps.x0 = 4) :
    AdvanceSequence 0 steps a v =
      (decide (steps.x0 = 4 ∧ a = 0x5555 ∧ v = 0x90),
        { steps with x0 :=
            if steps.x0 = 0 ∧ a = 0x5555 ∧ v = 0xAA then 2
            else if steps.x0 = 2 ∧ a = 0x2AAA ∧ v = 0x55 then 4
            else 0 }) := by
  obtain ⟨x0, x1, x2⟩ := steps
  simp only at h
  rcases h with h | h | h <;> subst h <;>
    simp [AdvanceSequence, kFlashSeqs, kFlashSeqsRows, Int3.get, Int3.set] <;>
    split_ifs <;> simp_all <;> omega

/-- What one `AdvanceSequence` call does to the Erase track (row 1). -/
theorem advance_Erase (steps : Int3) (a v : Nat)
    (h : steps.x1 = 0 ∨ steps.x1 = 2 ∨ steps.x1 = 4 ∨ steps.x1 = 6 ∨ steps.x1 = 8) :
    AdvanceSequence 1 steps a v =
      (decide (steps.x1 = 8 ∧ a = 0x2AAA ∧ v = 0x55),
        { steps with x1 :=
            if steps.x1 = 0 ∧ a = 0x5555 ∧ v = 0xAA then 2
            else if steps.x1 = 2 ∧ a = 0x2AAA ∧ v = 0x55 then 4
            else if steps.x1 = 4 ∧ a = 0x5555 ∧ v = 0x80 then 6
            else if steps.x1 = 6 ∧ a = 0x5555 ∧ v = 0xAA then 8
            else 0 }) := by
  obtain ⟨x0, x1, x2⟩ := steps
  simp only at h
  rcases h with h | h | h | h | h <;> subst h <;>
    simp [AdvanceSequence, kFlashSeqs, kFlashSeqsRows, Int3.get, Int3.set] <;>
    split_ifs <;> simp_all <;> omega

/-- What one `AdvanceSequence` call does to the Write track (row 2). -/
theorem advance_Write (steps : Int3) (a v : Nat)
    (h : steps.x2 = 0 ∨ steps.x2 = 2 ∨ steps.x2 = 4) :
    AdvanceSequence 2 steps a v =
      (decide (steps.x2 = 4 ∧ a = 0x5555 ∧ v = 0xA0),
        { steps with x2 :=
            if steps.x2 = 0 ∧ a = 0x5555 ∧ v = 0xAA then 2
            else if steps.x2 = 2 ∧ a = 0x2AAA ∧ v = 0x55 then 4
            else 0 }) := by
  obtain ⟨x0, x1, x2⟩ := steps
  simp only at h
  rcases h with h | h | h <;> subst h <;>
    simp [AdvanceSequence, kFlashSeqs, kFlashSeqsRows, Int3.get, Int3.set] <;>
    split_ifs <;> simp_all <;> omega

/-- The flag and steps of `AdvanceSequence` on a track `k` in `0..2` depend
only on the counter of that track, and only that counter is assigned. -/
theorem advance_frame (k : Nat) (steps : Int3) (a v : Nat) :
    (k = 0 → (AdvanceSequence k steps a v).2.x1 = steps.x1 ∧
              (AdvanceSequence k steps a v).2.x2 = steps.x2) ∧
    (k = 1 → (AdvanceSequence k steps a v).2.x0 = steps.x0 ∧
              (AdvanceSequence k steps a v).2.x2 = steps.x2) ∧
    (k = 2 → (AdvanceSequence k steps a v).2.x0 = steps.x0 ∧
              (AdvanceSequence k steps a v).2.x1 = steps.x1) := by
  refine ⟨?_, ?_, ?_⟩ <;> intro hk <;> subst hk <;>
    simp only [AdvanceSequence] <;> split_ifs <;> simp [Int3.set]

theorem stepInv_seqStep (mode : FlashSeqMode) (steps : Int3) (a v : Nat) (h : StepInv steps) :
    StepInv (seqStep mode steps a v).2 := by
  obtain ⟨h0, h1, h2⟩ := h
  have e2 := advance_Write steps a v h2
  have h1b : (AdvanceSequence 2 steps a v).2.x1 = steps.x1 :=
    ((advance_frame 2 steps a v).2.2 rfl).2
  have h0b : (AdvanceSequence 2 steps a v).2.x0 = steps.x0 :=
    ((advance_frame 2 steps a v).2.2 rfl).1
  have e1 := advance_Erase (AdvanceSequence 2 steps a v).2 a v (by rw [h1b]; exact h1)
  have h0c : (AdvanceSequence 1 (AdvanceSequence 2 steps a v).2 a v).2.x0 = steps.x0 := by
    rw [((advance_frame 1 _ a v).2.1 rfl).1, h0b]
  have e0 := advance_ID (AdvanceSequence 1 (AdvanceSequence 2 steps a v).2 a v).2 a v
    (by rw [h0c]; exact h0)
  show StepInv (AdvanceSequence 0 (AdvanceSequence 1 (AdvanceSequence 2 steps a v).2 a v).2 a v).2
  rw [e0, e1, e2]
  simp only [StepInv]
  refine ⟨?_, ?_, ?_⟩ <;> split_ifs <;> simp

theorem stepInv_write (s : IratahackMemoryRule) (a v : Nat) (h : StepInv s.m_iFlashStep) :
    StepInv (PerformWrite s a v).m_iFlashStep := by
  unfold PerformWrite
  split_ifs
  · rw [ProcessFlashAccess_eq]
    exact stepInv_seqStep s.m_iFlashMode s.m_iFlashStep a v h
  all_goals first
    | exact h
    | simp [ResetFlashState, StepInv]

theorem reachable_stepInv (s : IratahackMemoryRule) (h : Reachable s) :
    StepInv s.m_iFlashStep := by
  induction h with
  | reset s => simp [Reset, ResetFlashState, StepInv]
  | write s a v _ ih => exact stepInv_write s a v ih

/-- A track whose expected pair at the current step is not the incoming pair
is reset to step 0 and does not complete, whatever its step is. -/
theorem advance_mismatch (k : Nat) (steps : Int3) (a v : Nat)
    (h : ¬ ((a : Int) = kFlashSeqs k (steps.get k) ∧
            (v : Int) = kFlashSeqs k (steps.get k + 1))) :
    AdvanceSequence k steps a v = (false, steps.set k 0) := by
  simp only [AdvanceSequence]
  split_ifs <;> rfl

/-- C17 (step-counter invariant).  In every state reachable from `Reset` the
step counters of the three-pair tracks (`FlashSeqID`, `FlashSeqWrite`) are in
{0, 2, 4} and the counter of the five-pair track (`FlashSeqErase`) is in
{0, 2, 4, 6, 8}; hence every counter is even, `step` and `step + 1` are indices
inside the 11-element row, no entry of the row up to `step` is the sentinel
`-1`, and in particular `kFlashSeqs[k][step] ≠ -1`, so the sentinel branch at
the head of `AdvanceSequence` is not taken. -/
theorem step_counter_invariant (s : IratahackMemoryRule) (hs : Reachable s) :
    StepInv s.m_iFlashStep ∧
    (∀ k : Nat, k < 3 →
      s.m_iFlashStep.get k % 2 = 0 ∧
      0 ≤ s.m_iFlashStep.get k ∧ s.m_iFlashStep.get k + 1 < 11 ∧
      (∀ j : Int, 0 ≤ j → j ≤ s.m_iFlashStep.get k → kFlashSeqs k j ≠ -1) ∧
      kFlashSeqs k (s.m_iFlashStep.get k) ≠ -1) := by
  have hinv := reachable_stepInv s hs
  refine ⟨hinv, ?_⟩
  obtain ⟨h0, h1, h2⟩ := hinv
  have hrow : ∀ k : Nat, k < 3 → ∀ j : Int, 0 ≤ j →
      j ≤ (if k = 1 then 8 else 4) → kFlashSeqs k j ≠ -1 := by
    intro k hk j hj0 hj1
    interval_cases k
    · simp only [show ¬ ((0 : Nat) = 1) by decide, if_false] at hj1
      interval_cases j <;> decide
    · simp only [if_true] at hj1
      interval_cases j <;> decide
    · simp only [show ¬ ((2 : Nat) = 1) by decide, if_false] at hj1
      interval_cases j <;> decide
  intro k hk
  have hget : s.m_iFlashStep.get k % 2 = 0 ∧ 0 ≤ s.m_iFlashStep.get k ∧
      s.m_iFlashStep.get k ≤ (if k = 1 then 8 else 4) := by
    interval_cases k <;> simp only [Int3.get] <;> norm_num <;> omega
  refine ⟨hget.1, hget.2.1, ?_, ?_, ?_⟩
  · have := hget.2.2
    split_ifs at this <;> omega
  · intro j hj0 hj1
    exact hrow k hk j hj0 (le_trans hj1 hget.2.2)
  · exact hrow k hk _ hget.2.1 hget.2.2

/-- Instance of `step_counter_invariant` after the first two pairs of a
command sequence. -/
theorem step_counter_invariant_witness :
    Reachable (writes freshState [(0x5555, 0xAA), (0x2AAA, 0x55)]) ∧
    StepInv (writes freshState [(0x5555, 0xAA), (0x2AAA, 0x55)]).m_iFlashStep :=
  ⟨reachable_writes _ _ (Reachable.reset blankState),
    (step_counter_invariant _ (reachable_writes _ _ (Reachable.reset blankState))).1⟩

/-- C16 (at most one track completes per write).  For every state whose step
counters are valid pair indices (`StepInv`) and every write to 0x5555 or
0x2AAA: no two of the three `AdvanceSequence` evaluations made by
`ProcessFlashAccess` (Write, then Erase, then ID, each on the steps left by the
previous one) return true; and the mode and the step counters after
`PerformWrite` are those obtained by checking the three tracks in any of the
six possible orders. -/
theorem at_most_one_track_completes (s : IratahackMemoryRule) (hv : StepInv s.m_iFlashStep)
    (a v : Nat) (ha : a = 0x5555 ∨ a = 0x2AAA) :
    ¬ ((AdvanceSequence 2 s.m_iFlashStep a v).1 = true ∧
        (AdvanceSequence 1 (AdvanceSequence 2 s.m_iFlashStep a v).2 a v).1 = true) ∧
    ¬ ((AdvanceSequence 2 s.m_iFlashStep a v).1 = true ∧
        (AdvanceSequence 0
          (AdvanceSequence 1 (AdvanceSequence 2 s.m_iFlashStep a v).2 a v).2 a v).1 = true) ∧
    ¬ ((AdvanceSequence 1 (AdvanceSequence 2 s.m_iFlashStep a v).2 a v).1 = true ∧
        (AdvanceSequence 0
          (AdvanceSequence 1 (AdvanceSequence 2 s.m_iFlashStep a v).2 a v).2 a v).1 = true) ∧
    (∀ order : List FlashSeqMode,
      order ∈ [[FlashSeqMode.FlashSeqWrite, FlashSeqMode.FlashSeqErase, FlashSeqMode.FlashSeqID],
               [FlashSeqMode.FlashSeqWrite, FlashSeqMode.FlashSeqID, FlashSeqMode.FlashSeqErase],
               [FlashSeqMode.FlashSeqErase, FlashSeqMode.FlashSeqWrite, FlashSeqMode.FlashSeqID],
               [FlashSeqMode.FlashSeqErase, FlashSeqMode.FlashSeqID, FlashSeqMode.FlashSeqWrite],
               [FlashSeqMode.FlashSeqID, FlashSeqMode.FlashSeqWrite, FlashSeqMode.FlashSeqErase],
               [FlashSeqMode.FlashSeqID, FlashSeqMode.FlashSeqErase, FlashSeqMode.FlashSeqWrite]] →
      (PerformWrite s a v).m_iFlashMode
          = (advanceInOrder order s.m_iFlashMode s.m_iFlashStep a v).1 ∧
      (PerformWrite s a v).m_iFlashStep
          = (advanceInOrder order s.m_iFlashMode s.m_iFlashStep a v).2) := by
  have hw : PerformWrite s a v = ProcessFlashAccess s a v := by
    unfold PerformWrite
    rw [if_pos ha]
  rw [hw, ProcessFlashAccess_eq]
  generalize s.m_iFlashMode = mode
  generalize s.m_iFlashStep = steps at hv
  obtain ⟨x0, x1, x2⟩ := steps
  obtain ⟨h0, h1, h2⟩ := hv
  simp only at h0 h1 h2
  refine ⟨?_, ?_, ?_, ?_⟩
  · simp [advance_ID, advance_Erase, advance_Write, h0, h1, h2]
    omega
  · simp [advance_ID, advance_Erase, advance_Write, h0, h1, h2]
    omega
  · simp [advance_ID, advance_Erase, advance_Write, h0, h1, h2]
    omega
  · intro order horder
    simp only [List.mem_cons, List.mem_singleton, List.not_mem_nil, or_false] at horder
    rcases horder with h | h | h | h | h | h <;> subst h <;>
      simp [seqStep, advanceInOrder, FlashSeqMode.toNat, advance_ID, advance_Erase,
        advance_Write, h0, h1, h2] <;>
      split_ifs <;> simp_all

/-- Instance of `at_most_one_track_completes`: the write (0x5555, 0x90) in the
state reached from `Reset` by the first two pairs, where the ID track
completes. -/
theorem at_most_one_track_completes_witness :
    StepInv (writes freshState [(0x5555, 0xAA), (0x2AAA, 0x55)]).m_iFlashStep ∧
    ((0x5555 : Nat) = 0x5555 ∨ (0x5555 : Nat) = 0x2AAA) ∧
    ¬ ((AdvanceSequence 2
          (writes freshState [(0x5555, 0xAA), (0x2AAA, 0x55)]).m_iFlashStep 0x5555 0x90).1 = true ∧
        (AdvanceSequence 1
          (AdvanceSequence 2
            (writes freshState [(0x5555, 0xAA), (0x2AAA, 0x55)]).m_iFlashStep 0x5555 0x90).2
          0x5555 0x90).1 = true) :=
  ⟨reachable_stepInv _ (reachable_writes _ _ (Reachable.reset blankState)), Or.inl rfl,
    (at_most_one_track_completes _
      (reachable_stepInv _ (reachable_writes _ _ (Reachable.reset blankState)))
      0x5555 0x90 (Or.inl rfl)).1⟩

/-- C15, as stated, fails for addresses other than 0x5555 and 0x2AAA: such a
write does not reach the sequencer.  After `Reset` and the write (0x5555, 0xAA)
the mode is none and the three step counters are 2, where every track expects
(0x2AAA, 0x55).  The writes (0x1234, 0x00) and (0xC000, 0x00) match no track,
yet they leave the three step counters at 2. -/
theorem mismatch_reset_counterexample :
    Reachable (writes freshState [(0x5555, 0xAA)]) ∧
    (writes freshState [(0x5555, 0xAA)]).m_iFlashMode = FlashSeqMode.FlashSeqCount ∧
    (writes freshState [(0x5555, 0xAA)]).m_iFlashStep = ⟨2, 2, 2⟩ ∧
    (kFlashSeqs 0 2 = 0x2AAA ∧ kFlashSeqs 1 2 = 0x2AAA ∧ kFlashSeqs 2 2 = 0x2AAA) ∧
    (PerformWrite (writes freshState [(0x5555, 0xAA)]) 0x1234 0x00).m_iFlashStep = ⟨2, 2, 2⟩ ∧
    (PerformWrite (writes freshState [(0x5555, 0xAA)]) 0xC000 0x00).m_iFlashStep = ⟨2, 2, 2⟩ ∧
    (PerformWrite (writes freshState [(0x5555, 0xAA)]) 0x1234 0x00).m_iFlashStep ≠ ⟨0, 0, 0⟩ :=
  ⟨reachable_writes _ _ (Reachable.reset blankState), by decide, by decide,
    ⟨by decide, by decide, by decide⟩, by decide, by decide, by decide⟩

/-- C15 (mismatch reset), amended: the write goes to one of the two command
addresses 0x5555 and 0x2AAA.  For every state reachable from `Reset` with mode
none and every such write whose pair is not the next expected pair of any of
the three tracks at their current step, after `PerformWrite` all three step
counters are 0, the mode is still none and the flash store is unchanged. -/
theorem mismatch_reset (s : IratahackMemoryRule) (_hs : Reachable s)
    (hmode : s.m_iFlashMode = FlashSeqMode.FlashSeqCount)
    (a v : Nat) (ha : a = 0x5555 ∨ a = 0x2AAA)
    (hmis : ∀ k : Nat, k < 3 →
      ¬ ((a : Int) = kFlashSeqs k (s.m_iFlashStep.get k) ∧
          (v : Int) = kFlashSeqs k (s.m_iFlashStep.get k + 1))) :
    (PerformWrite s a v).m_iFlashStep = ⟨0, 0, 0⟩ ∧
    (PerformWrite s a v).m_iFlashMode = FlashSeqMode.FlashSeqCount ∧
    (PerformWrite s a v).m_pFlash = s.m_pFlash := by
  have hw : PerformWrite s a v = ProcessFlashAccess s a v := by
    unfold PerformWrite
    rw [if_pos ha]
  have e2 := advance_mismatch 2 s.m_iFlashStep a v (hmis 2 (by decide))
  have e1 := advance_mismatch 1 (s.m_iFlashStep.set 2 0) a v (hmis 1 (by decide))
  have e0 := advance_mismatch 0 ((s.m_iFlashStep.set 2 0).set 1 0) a v (hmis 0 (by decide))
  have hseq : seqStep s.m_iFlashMode s.m_iFlashStep a v
      = (FlashSeqMode.FlashSeqCount, ⟨0, 0, 0⟩) := by
    simp only [seqStep, FlashSeqMode.toNat, e2, e1, e0, hmode]
    simp [Int3.set]
  rw [hw, ProcessFlashAccess_eq, hseq]
  exact ⟨rfl, rfl, rfl⟩

/-- Instance of `mismatch_reset`: after `Reset` and (0x5555, 0xAA) the write
(0x5555, 0xAA) matches no track. -/
theorem mismatch_reset_witness :
    Reachable (writes freshState [(0x5555, 0xAA)]) ∧
    (writes freshState [(0x5555, 0xAA)]).m_iFlashMode = FlashSeqMode.FlashSeqCount ∧
    ((0x5555 : Nat) = 0x5555 ∨ (0x5555 : Nat) = 0x2AAA) ∧
    (∀ k : Nat, k < 3 →
      ¬ (((0x5555 : Nat) : Int)
            = kFlashSeqs k ((writes freshState [(0x5555, 0xAA)]).m_iFlashStep.get k) ∧
          ((0xAA : Nat) : Int)
            = kFlashSeqs k ((writes freshState [(0x5555, 0xAA)]).m_iFlashStep.get k + 1))) ∧
    (PerformWrite (writes freshState [(0x5555, 0xAA)]) 0x5555 0xAA).m_iFlashStep = ⟨0, 0, 0⟩ :=
  ⟨reachable_writes _ _ (Reachable.reset blankState), by decide, Or.inl rfl,
    by intro k hk; interval_cases k <;> decide,
    (mismatch_reset _ (reachable_writes _ _ (Reachable.reset blankState)) (by decide)
      0x5555 0xAA (Or.inl rfl) (by intro k hk; interval_cases k <;> decide)).1⟩

/-- C18 (writes to the command addresses never consume a mode).  For every
state and every value `v`, a `PerformWrite` to 0x5555 or 0x2AAA leaves the
flash store, `m_iGameSlot`, `m_iMapperSlot` and `m_iMapperSlotAddress` unchanged;
the mode afterwards is the mode before the write or the mode of a track whose
`AdvanceSequence` evaluation returned true on this write; and a mode other
than none is never reset to none. -/
theorem command_write_never_consumes (s : IratahackMemoryRule) (a v : Nat)
    (ha : a = 0x5555 ∨ a = 0x2AAA) :
    (PerformWrite s a v).m_pFlash = s.m_pFlash ∧
    (PerformWrite s a v).m_iGameSlot = s.m_iGameSlot ∧
    (PerformWrite s a v).m_iMapperSlot = s.m_iMapperSlot ∧
    (PerformWrite s a v).m_iMapperSlotAddress = s.m_iMapperSlotAddress ∧
    ((PerformWrite s a v).m_iFlashMode = s.m_iFlashMode ∨
      ((PerformWrite s a v).m_iFlashMode = FlashSeqMode.FlashSeqWrite ∧
        (AdvanceSequence 2 s.m_iFlashStep a v).1 = true) ∨
      ((PerformWrite s a v).m_iFlashMode = FlashSeqMode.FlashSeqErase ∧
        (AdvanceSequence 1 (AdvanceSequence 2 s.m_iFlashStep a v).2 a v).1 = true) ∨
      ((PerformWrite s a v).m_iFlashMode = FlashSeqMode.FlashSeqID ∧
        (AdvanceSequence 0
          (AdvanceSequence 1 (AdvanceSequence 2 s.m_iFlashStep a v).2 a v).2 a v).1 = true)) ∧
    (s.m_iFlashMode ≠ FlashSeqMode.FlashSeqCount →
      (PerformWrite s a v).m_iFlashMode ≠ FlashSeqMode.FlashSeqCount) := by
  have hw : PerformWrite s a v = ProcessFlashAccess s a v := by
    unfold PerformWrite
    rw [if_pos ha]
  rw [hw, ProcessFlashAccess_eq]
  refine ⟨rfl, rfl, rfl, rfl, ?_, ?_⟩
  · simp only [seqStep, FlashSeqMode.toNat]
    split_ifs <;> simp_all
  · intro hne
    simp only [seqStep, FlashSeqMode.toNat]
    split_ifs <;> simp_all

/-- Instance of `command_write_never_consumes`: a data byte written to 0x5555
while byte programming is armed (after `Reset` and the sequence ending in
0xA0) is not stored and the mode stays `FlashSeqWrite`. -/
theorem command_write_never_consumes_witness :
    ((0x5555 : Nat) = 0x5555 ∨ (0x5555 : Nat) = 0x2AAA) ∧
    (writes freshState [(0x5555, 0xAA), (0x2AAA, 0x55), (0x5555, 0xA0)]).m_iFlashMode
      = FlashSeqMode.FlashSeqWrite ∧
    (PerformWrite (writes freshState [(0x5555, 0xAA), (0x2AAA, 0x55), (0x5555, 0xA0)])
        0x5555 0x12).m_pFlash
      = (writes freshState [(0x5555, 0xAA), (0x2AAA, 0x55), (0x5555, 0xA0)]).m_pFlash ∧
    (PerformWrite (writes freshState [(0x5555, 0xAA), (0x2AAA, 0x55), (0x5555, 0xA0)])
        0x5555 0x12).m_iFlashMode ≠ FlashSeqMode.FlashSeqCount :=
  ⟨Or.inl rfl, by decide,
    (command_write_never_consumes
      (writes freshState [(0x5555, 0xAA), (0x2AAA, 0x55), (0x5555, 0xA0)])
      0x5555 0x12 (Or.inl rfl)).1,
    (command_write_never_consumes
      (writes freshState [(0x5555, 0xAA), (0x2AAA, 0x55), (0x5555, 0xA0)])
      0x5555 0x12 (Or.inl rfl)).2.2.2.2.2 (by decide)⟩

/-- C19 (no restart on mismatch).  A track whose expected pair at its current
step is not the incoming pair is reset to step 0 and does not complete; the
write is not examined again as the first pair of the row, so even the first
pair (0x5555, 0xAA) arriving at step 2 leaves the track at step 0, not 2.  In
particular, from the state right after `Reset` (of any prior state) the writes
(0x5555,0xAA), (0x5555,0xAA), (0x2AAA,0x55), (0x5555,0x90) leave the mode none
and all three step counters 0. -/
theorem no_restart_on_mismatch (s : IratahackMemoryRule) :
    (∀ (k : Nat) (steps : Int3) (a v : Nat),
      ¬ ((a : Int) = kFlashSeqs k (steps.get k) ∧ (v : Int) = kFlashSeqs k (steps.get k + 1)) →
      AdvanceSequence k steps a v = (false, steps.set k 0)) ∧
    (∀ k : Nat, k < 3 → AdvanceSequence k ⟨2, 2, 2⟩ 0x5555 0xAA = (false, Int3.set ⟨2, 2, 2⟩ k 0)) ∧
    (writes (Reset s) [(0x5555, 0xAA), (0x5555, 0xAA), (0x2AAA, 0x55), (0x5555, 0x90)]).m_iFlashMode
      = FlashSeqMode.FlashSeqCount ∧
    (writes (Reset s) [(0x5555, 0xAA), (0x5555, 0xAA), (0x2AAA, 0x55), (0x5555, 0x90)]).m_iFlashStep
      = ⟨0, 0, 0⟩ := by
  have h := writes_cmd [(0x5555, 0xAA), (0x5555, 0xAA), (0x2AAA, 0x55), (0x5555, 0x90)]
    (Reset s) (by decide)
  have hm : (Reset s).m_iFlashMode = FlashSeqMode.FlashSeqCount := rfl
  have hst : (Reset s).m_iFlashStep = ⟨0, 0, 0⟩ := rfl
  have hseq : seqRun FlashSeqMode.FlashSeqCount ⟨0, 0, 0⟩
      [(0x5555, 0xAA), (0x5555, 0xAA), (0x2AAA, 0x55), (0x5555, 0x90)]
        = (FlashSeqMode.FlashSeqCount, ⟨0, 0, 0⟩) := by decide
  rw [hm, hst, hseq] at h
  refine ⟨fun k steps a v hmis => advance_mismatch k steps a v hmis, ?_, ?_, ?_⟩
  · intro k hk
    interval_cases k <;> decide
  · rw [h]
  · rw [h]

/-- Instance of `no_restart_on_mismatch`: the ID track at step 2 receiving
(0x5555, 0xAA). -/
theorem no_restart_on_mismatch_witness :
    ¬ (((0x5555 : Nat) : Int) = kFlashSeqs 0 (Int3.get ⟨2, 0, 0⟩ 0) ∧
        ((0xAA : Nat) : Int) = kFlashSeqs 0 (Int3.get ⟨2, 0, 0⟩ 0 + 1)) ∧
    AdvanceSequence 0 ⟨2, 0, 0⟩ 0x5555 0xAA = (false, Int3.set ⟨2, 0, 0⟩ 0 0) :=
  ⟨by decide, (no_restart_on_mismatch blankState).1 0 ⟨2, 0, 0⟩ 0x5555 0xAA (by decide)⟩

/-- C20 (an armed mode can be replaced by stale track progress).  Starting
from a state with mode none and all step counters 0, after the five writes
(0x5555,0xAA), (0x2AAA,0x55), (0x5555,0x80), (0x5555,0xAA), (0x2AAA,0x55) the
mode is `FlashSeqErase` and the two three-pair tracks are both at step 4; one
further write (0x5555,0x90) makes the mode `FlashSeqID`, one further write
(0x5555,0xA0) makes it `FlashSeqWrite`, and in both cases the flash store is
the one of the starting state. -/
theorem armed_mode_replaced (s : IratahackMemoryRule)
    (hmode : s.m_iFlashMode = FlashSeqMode.FlashSeqCount)
    (hsteps : s.m_iFlashStep = ⟨0, 0, 0⟩) :
    (writes s [(0x5555, 0xAA), (0x2AAA, 0x55), (0x5555, 0x80), (0x5555, 0xAA),
        (0x2AAA, 0x55)]).m_iFlashMode = FlashSeqMode.FlashSeqErase ∧
    (writes s [(0x5555, 0xAA), (0x2AAA, 0x55), (0x5555, 0x80), (0x5555, 0xAA),
        (0x2AAA, 0x55)]).m_iFlashStep = ⟨4, 0, 4⟩ ∧
    (writes s [(0x5555, 0xAA), (0x2AAA, 0x55), (0x5555, 0x80), (0x5555, 0xAA),
        (0x2AAA, 0x55), (0x5555, 0x90)]).m_iFlashMode = FlashSeqMode.FlashSeqID ∧
    (writes s [(0x5555, 0xAA), (0x2AAA, 0x55), (0x5555, 0x80), (0x5555, 0xAA),
        (0x2AAA, 0x55), (0x5555, 0x90)]).m_pFlash = s.m_pFlash ∧
    (writes s [(0x5555, 0xAA), (0x2AAA, 0x55), (0x5555, 0x80), (0x5555, 0xAA),
        (0x2AAA, 0x55), (0x5555, 0xA0)]).m_iFlashMode = FlashSeqMode.FlashSeqWrite ∧
    (writes s [(0x5555, 0xAA), (0x2AAA, 0x55), (0x5555, 0x80), (0x5555, 0xAA),
        (0x2AAA, 0x55), (0x5555, 0xA0)]).m_pFlash = s.m_pFlash := by
  have h5 := writes_cmd
    [(0x5555, 0xAA), (0x2AAA, 0x55), (0x5555, 0x80), (0x5555, 0xAA), (0x2AAA, 0x55)] s
    (by decide)
  have h6a := writes_cmd
    [(0x5555, 0xAA), (0x2AAA, 0x55), (0x5555, 0x80), (0x5555, 0xAA), (0x2AAA, 0x55),
      (0x5555, 0x90)] s (by decide)
  have h6b := writes_cmd
    [(0x5555, 0xAA), (0x2AAA, 0x55), (0x5555, 0x80), (0x5555, 0xAA), (0x2AAA, 0x55),
      (0x5555, 0xA0)] s (by decide)
  have e5 : seqRun FlashSeqMode.FlashSeqCount ⟨0, 0, 0⟩
      [(0x5555, 0xAA), (0x2AAA, 0x55), (0x5555, 0x80), (0x5555, 0xAA), (0x2AAA, 0x55)]
        = (FlashSeqMode.FlashSeqErase, ⟨4, 0, 4⟩) := by decide
  have e6a : seqRun FlashSeqMode.FlashSeqCount ⟨0, 0, 0⟩
      [(0x5555, 0xAA), (0x2AAA, 0x55), (0x5555, 0x80), (0x5555, 0xAA), (0x2AAA, 0x55),
        (0x5555, 0x90)] = (FlashSeqMode.FlashSeqID, ⟨0, 0, 0⟩) := by decide
  have e6b : seqRun FlashSeqMode.FlashSeqCount ⟨0, 0, 0⟩
      [(0x5555, 0xAA), (0x2AAA, 0x55), (0x5555, 0x80), (0x5555, 0xAA), (0x2AAA, 0x55),
        (0x5555, 0xA0)] = (FlashSeqMode.FlashSeqWrite, ⟨0, 0, 0⟩) := by decide
  rw [hmode, hsteps, e5] at h5
  rw [hmode, hsteps, e6a] at h6a
  rw [hmode, hsteps, e6b] at h6b
  rw [h5, h6a, h6b]
  exact ⟨rfl, rfl, rfl, rfl, rfl, rfl⟩

/-- Instance of `armed_mode_replaced` right after `Reset`. -/
theorem armed_mode_replaced_witness :
    freshState.m_iFlashMode = FlashSeqMode.FlashSeqCount ∧
    freshState.m_iFlashStep = ⟨0, 0, 0⟩ ∧
    (writes freshState [(0x5555, 0xAA), (0x2AAA, 0x55), (0x5555, 0x80), (0x5555, 0xAA),
        (0x2AAA, 0x55), (0x5555, 0x90)]).m_iFlashMode = FlashSeqMode.FlashSeqID :=
  ⟨rfl, rfl, (armed_mode_replaced freshState rfl rfl).2.2.1⟩

/-! ## RAM mirroring -/

/-- C12 (RAM mirroring), with the console RAM a map from address to byte.  For
`a` in [0xC000, 0xE000), after `PerformWrite(a, v)` both `PerformRead(a)` and
`PerformRead(a + 0x2000)` return `v`; for `a` in [0xE000, 0xFFFF], the register
addresses 0xFFFE and 0xFFFF included, after `PerformWrite(a, v)` both
`PerformRead(a)` and `PerformRead(a - 0x2000)` return `v`. -/
theorem ram_mirroring (s : IratahackMemoryRule) (a v : Nat) :
    (0xC000 ≤ a → a < 0xE000 →
      PerformRead (PerformWrite s a v) a = v ∧
      PerformRead (PerformWrite s a v) (a + 0x2000) = v) ∧
    (0xE000 ≤ a → a ≤ 0xFFFF →
      PerformRead (PerformWrite s a v) a = v ∧
      PerformRead (PerformWrite s a v) (a - 0x2000) = v) := by
  constructor
  · intro h1 h2
    have hcmd : ¬ (a = 0x5555 ∨ a = 0x2AAA) := by omega
    have hC : ¬ a < 0xC000 := by omega
    have hmod : (a + 0x2000) % 0x10000 = a + 0x2000 := by omega
    have hw : PerformWrite s a v =
        { s with m_pMemory := (s.m_pMemory.Load a v).Load (a + 0x2000) v } := by
      simp only [PerformWrite, if_neg hcmd, if_neg hC, if_pos h2, hmod]
    have r1 : ¬ a < 0x4000 := by omega
    have r2 : ¬ a < 0x8000 := by omega
    have q1 : ¬ a + 0x2000 < 0x4000 := by omega
    have q2 : ¬ a + 0x2000 < 0x8000 := by omega
    have q3 : ¬ a + 0x2000 < 0xC000 := by omega
    rw [hw]
    constructor
    · simp only [PerformRead, if_neg r1, if_neg r2, if_neg hC, Memory.Retrieve, Memory.Load]
      split_ifs <;> rfl
    · simp only [PerformRead, if_neg q1, if_neg q2, if_neg q3, Memory.Retrieve, Memory.Load]
      split_ifs <;> rfl
  · intro h1 h2
    have hcmd : ¬ (a = 0x5555 ∨ a = 0x2AAA) := by omega
    have hC : ¬ a < 0xC000 := by omega
    have hE : ¬ a < 0xE000 := by omega
    have hmem : (PerformWrite s a v).m_pMemory = (s.m_pMemory.Load a v).Load (a - 0x2000) v := by
      simp only [PerformWrite, if_neg hcmd, if_neg hC, if_neg hE]
      split_ifs <;> rfl
    have r1 : ¬ a < 0x4000 := by omega
    have r2 : ¬ a < 0x8000 := by omega
    have q1 : ¬ a - 0x2000 < 0x4000 := by omega
    have q2 : ¬ a - 0x2000 < 0x8000 := by omega
    have q3 : ¬ a - 0x2000 < 0xC000 := by omega
    constructor
    · simp only [PerformRead, if_neg r1, if_neg r2, if_neg hC, hmem, Memory.Retrieve, Memory.Load]
      split_ifs <;> rfl
    · simp only [PerformRead, if_neg q1, if_neg q2, if_neg q3, hmem, Memory.Retrieve, Memory.Load]
      split_ifs <;> rfl

/-- Instance of `ram_mirroring`: the pairs 0xC100 / 0xE100 of the spec, right
after `Reset`. -/
theorem ram_mirroring_witness :
    ((0xC000 : Nat) ≤ 0xC100 ∧ (0xC100 : Nat) < 0xE000 ∧
      PerformRead (PerformWrite freshState 0xC100 0x5A) (0xC100 + 0x2000) = 0x5A) ∧
    ((0xE000 : Nat) ≤ 0xE100 ∧ (0xE100 : Nat) ≤ 0xFFFF ∧
      PerformRead (PerformWrite freshState 0xE100 0x5A) (0xE100 - 0x2000) = 0x5A) :=
  ⟨⟨by decide, by decide,
      ((ram_mirroring freshState 0xC100 0x5A).1 (by decide) (by decide)).2⟩,
    ⟨by decide, by decide,
      ((ram_mirroring freshState 0xE100 0x5A).2 (by decide) (by decide)).2⟩⟩

/-! ## Derived offsets and bounds -/

/-- C13 (derived-offset invariant).  Every state reachable from `Reset`
satisfies `m_iGameSlot ∈ [0,3]`, `m_iMapperSlot[2] ∈ [0,7]`,
`m_iMapperSlotAddress[0] = m_iGameSlot*0x20000`,
`m_iMapperSlotAddress[1] = m_iMapperSlotAddress[0] + 0x4000` and
`m_iMapperSlotAddress[2] = m_iMapperSlotAddress[0] + m_iMapperSlot[2]*0x4000`;
hence each of the three offsets lies in [0, 0x7C000] with
`offset + 0x4000 ≤ 0x80000`; the index at which `PerformRead` reads `m_pFlash`
for an address below 0xC000 lies inside the store; and the `flashIndex` of the
byte-program branch is that index and passes the bounds check
`flashIndex < 0x80000`. -/
theorem derived_offset_invariant (s : IratahackMemoryRule) (hs : Reachable s) :
    (0 ≤ s.m_iGameSlot ∧ s.m_iGameSlot ≤ 3) ∧
    (0 ≤ s.m_iMapperSlot.get 2 ∧ s.m_iMapperSlot.get 2 ≤ 7) ∧
    s.m_iMapperSlotAddress.get 0 = s.m_iGameSlot * 0x20000 ∧
    s.m_iMapperSlotAddress.get 1 = s.m_iMapperSlotAddress.get 0 + 0x4000 ∧
    s.m_iMapperSlotAddress.get 2
      = s.m_iMapperSlotAddress.get 0 + s.m_iMapperSlot.get 2 * 0x4000 ∧
    (∀ k : Nat, k < 3 →
      0 ≤ s.m_iMapperSlotAddress.get k ∧ s.m_iMapperSlotAddress.get k ≤ 0x7C000 ∧
      s.m_iMapperSlotAddress.get k + 0x4000 ≤ 0x80000) ∧
    (∀ A : Nat, A < 0xC000 →
      (0x4000 ≤ A ∨ s.m_iFlashMode ≠ FlashSeqMode.FlashSeqID →
        PerformRead s A = s.m_pFlash (windowOffset s A)) ∧
      0 ≤ windowOffset s A ∧ windowOffset s A < 0x80000 ∧
      (flashIndex s A : Int) = windowOffset s A ∧ flashIndex s A < 0x80000) := by
  obtain ⟨g0, g3, b0, b7, a0, a1, a2⟩ := reachable_slotInv s hs
  have hrange : ∀ A : Nat, A < 0xC000 → 0 ≤ windowOffset s A ∧ windowOffset s A < 0x80000 := by
    intro A hA
    unfold windowOffset
    simp only [Int3.get]
    split_ifs <;> omega
  refine ⟨⟨g0, g3⟩, ⟨b0, b7⟩, a0, ?_, ?_, ?_, ?_⟩
  · simp only [Int3.get]
    norm_num
    omega
  · simp only [Int3.get]
    norm_num
    omega
  · intro k hk
    interval_cases k <;> simp only [Int3.get] <;> norm_num <;> omega
  · intro A hA
    obtain ⟨hlo, hhi⟩ := hrange A hA
    have hidx : (flashIndex s A : Int) = windowOffset s A := by
      rw [flashIndex_eq]
      unfold toU32
      omega
    exact ⟨fun h => PerformRead_eq_windowOffset s A hA h, hlo, hhi, hidx, by omega⟩

/-- Instance of `derived_offset_invariant` after selecting game slot 3 and
bank 7 (the largest offsets). -/
theorem derived_offset_invariant_witness :
    Reachable (writes freshState [(0xFFFE, 0x03), (0xFFFF, 0x07)]) ∧
    (∀ k : Nat, k < 3 →
      0 ≤ (writes freshState [(0xFFFE, 0x03), (0xFFFF, 0x07)]).m_iMapperSlotAddress.get k ∧
      (writes freshState [(0xFFFE, 0x03), (0xFFFF, 0x07)]).m_iMapperSlotAddress.get k
        ≤ 0x7C000 ∧
      (writes freshState [(0xFFFE, 0x03), (0xFFFF, 0x07)]).m_iMapperSlotAddress.get k + 0x4000
        ≤ 0x80000) :=
  ⟨reachable_writes _ _ (Reachable.reset blankState),
    (derived_offset_invariant _
      (reachable_writes _ _ (Reachable.reset blankState))).2.2.2.2.2.1⟩

/-- C14 fails on the code: the bounds check of the erase branch is made in
`u32` arithmetic and wraps.  In the state reached from `Reset` by the five-pair
erase sequence (mode `FlashSeqErase`, `m_iMapperSlotAddress[2] = 0`) the write
(0x4000, 0x30) reaches the consumption branch; `sectorBase` is
`0xFFFFC000` (the `int` -0x4000 converted to `u32` and masked),
`sectorBase + 0x4000` wraps to 0 and passes `<= 0x80000`, although as natural
numbers `sectorBase + 0x4000 > 0x80000`; the 0x4000-byte fill is performed at
`m_pFlash + 0xFFFFC000`, outside the 0x80000-byte store. -/
theorem sectorErase_bounds_failing :
    Reachable (writes freshState
      [(0x5555, 0xAA), (0x2AAA, 0x55), (0x5555, 0x80), (0x5555, 0xAA), (0x2AAA, 0x55)]) ∧
    (writes freshState
      [(0x5555, 0xAA), (0x2AAA, 0x55), (0x5555, 0x80), (0x5555, 0xAA), (0x2AAA, 0x55)]).m_iFlashMode
        = FlashSeqMode.FlashSeqErase ∧
    ((0x4000 : Nat) < 0xC000 ∧ (0x4000 : Nat) ≠ 0x5555 ∧ (0x4000 : Nat) ≠ 0x2AAA) ∧
    sectorBase (writes freshState
      [(0x5555, 0xAA), (0x2AAA, 0x55), (0x5555, 0x80), (0x5555, 0xAA), (0x2AAA, 0x55)]) 0x4000
        = 0xFFFFC000 ∧
    ((0xFFFFC000 + 0x4000) % 2 ^ 32 ≤ 0x80000 ∧ ¬ (0xFFFFC000 + 0x4000 ≤ 0x80000)) ∧
    (writes freshState
      [(0x5555, 0xAA), (0x2AAA, 0x55), (0x5555, 0x80), (0x5555, 0xAA),
        (0x2AAA, 0x55)]).m_pFlash 0xFFFFC000 = 0 ∧
    (PerformWrite (writes freshState
      [(0x5555, 0xAA), (0x2AAA, 0x55), (0x5555, 0x80), (0x5555, 0xAA), (0x2AAA, 0x55)])
        0x4000 0x30).m_pFlash 0xFFFFC000 = 0xFF ∧
    (PerformWrite (writes freshState
      [(0x5555, 0xAA), (0x2AAA, 0x55), (0x5555, 0x80), (0x5555, 0xAA), (0x2AAA, 0x55)])
        0x4000 0x30).m_pFlash 0xFFFFFFFF = 0xFF :=
  ⟨reachable_writes _ _ (Reachable.reset blankState), by decide, by decide, by decide,
    by decide, by decide, by decide, by decide⟩

/-! ## Snapshots -/

theorem bytesInt_intBytes (x : Int) (hx : IsInt32 x) (rest : List Nat) :
    bytesInt (intBytes x ++ rest) = x := by
  obtain ⟨hlo, hhi⟩ := hx
  norm_num at hlo hhi
  simp only [bytesInt, intBytes, List.cons_append, List.nil_append, List.getD_cons_zero,
    List.getD_cons_succ, toU32]
  split_ifs <;> omega

theorem bytesInt3_int3Bytes (a : Int3)
    (h : IsInt32 a.x0 ∧ IsInt32 a.x1 ∧ IsInt32 a.x2) :
    bytesInt3 (int3Bytes a) = a := by
  obtain ⟨x0, x1, x2⟩ := a
  obtain ⟨h0, h1, h2⟩ := h
  have e0 := bytesInt_intBytes x0 h0 (intBytes x1 ++ intBytes x2)
  have e1 := bytesInt_intBytes x1 h1 (intBytes x2)
  have e2 := bytesInt_intBytes x2 h2 []
  have d4 : (intBytes x0 ++ (intBytes x1 ++ intBytes x2)).drop 4
      = intBytes x1 ++ intBytes x2 := rfl
  have d8 : (intBytes x0 ++ (intBytes x1 ++ intBytes x2)).drop 8 = intBytes x2 ++ [] := rfl
  simp only [bytesInt3, int3Bytes, List.append_assoc, d4, d8, e0, e1, e2]

theorem ofInt_toInt (m : FlashSeqMode) : FlashSeqMode.ofInt m.toInt = m := by
  cases m with
  | FlashSeqID => rfl
  | FlashSeqErase => rfl
  | FlashSeqWrite => rfl
  | FlashSeqCount => rfl
  | raw tag h =>
    show FlashSeqMode.ofInt tag = FlashSeqMode.raw tag h
    unfold FlashSeqMode.ofInt
    rw [dif_pos h]

theorem toInt_ofInt (x : Int) : (FlashSeqMode.ofInt x).toInt = x := by
  unfold FlashSeqMode.ofInt
  split_ifs with h h0 h1 h2
  · rfl
  · exact h0.symm
  · exact h1.symm
  · exact h2.symm
  · show (3 : Int) = x
    omega

theorem ofInt_bytes (m : FlashSeqMode) (h : IsInt32 m.toInt) :
    FlashSeqMode.ofInt (bytesInt (intBytes m.toInt ++ [])) = m := by
  rw [bytesInt_intBytes _ h, ofInt_toInt]

theorem streamRead_append (xs old rest : List Nat) (h : xs.length = old.length) :
    streamRead (xs ++ rest) old = (xs, rest) := by
  unfold streamRead
  rw [← h, List.take_left, List.drop_left]
  have hd : old.drop (xs ++ rest).length = [] := by
    apply List.drop_eq_nil_of_le
    rw [List.length_append]
    omega
  rw [hd, List.append_nil]

theorem bufferBytes_length (buf : Buffer) (n : Nat) : (bufferBytes buf n).length = n := by
  simp [bufferBytes]

theorem streamReadBuffer_append (f g : Buffer) (n : Nat) (rest : List Nat) :
    streamReadBuffer (bufferBytes f n ++ rest) g n =
      (fun i => if 0 ≤ i ∧ i < (n : Int) then f i else g i, rest) := by
  unfold streamReadBuffer
  have hlen := bufferBytes_length f n
  congr 1
  · funext i
    by_cases hi : 0 ≤ i ∧ i < (n : Int)
    · have hk : i.toNat < n := by omega
      have hk2 : i.toNat < (bufferBytes f n ++ rest).length := by
        rw [List.length_append, hlen]
        omega
      have hcast : ((i.toNat : Nat) : Int) = i := by omega
      rw [if_pos hi, if_pos ⟨hi.1, hi.2, hk2⟩]
      simp [bufferBytes, List.getD, List.getElem?_append_left, hk, hcast]
    · have hi2 : ¬ (0 ≤ i ∧ i < (n : Int) ∧ i.toNat < (bufferBytes f n ++ rest).length) :=
        fun h => hi ⟨h.1, h.2.1⟩
      rw [if_neg hi, if_neg hi2]
  · have h := List.drop_left (bufferBytes f n) rest
    rw [hlen] at h
    exact h

theorem int3Bytes_length (a : Int3) : (int3Bytes a).length = 12 := rfl

theorem LoadState_SaveState (s t : IratahackMemoryRule) (hty : WellTyped s) :
    LoadState t (SaveState s []) =
      { t with
        m_pFlash := fun i => if 0 ≤ i ∧ i < ((0x80000 : Nat) : Int) then s.m_pFlash i
                             else t.m_pFlash i,
        m_iMapperSlot := s.m_iMapperSlot,
        m_iMapperSlotAddress := s.m_iMapperSlotAddress,
        m_iGameSlot := s.m_iGameSlot,
        m_iFlashMode := s.m_iFlashMode,
        m_iFlashStep := s.m_iFlashStep } := by
  obtain ⟨hslot, haddr, hgs, hmt, hstep⟩ := hty
  have hsave : SaveState s [] =
      bufferBytes s.m_pFlash 0x80000 ++
        (int3Bytes s.m_iMapperSlot ++
          (int3Bytes s.m_iMapperSlotAddress ++
            (intBytes s.m_iGameSlot ++
              (intBytes s.m_iFlashMode.toInt ++ int3Bytes s.m_iFlashStep)))) :=
    List.nil_append _
  have e5 : bytesInt3 (int3Bytes s.m_iFlashStep) = s.m_iFlashStep :=
    bytesInt3_int3Bytes _ hstep
  have e4 : FlashSeqMode.ofInt (bytesInt (intBytes s.m_iFlashMode.toInt))
      = s.m_iFlashMode := by
    have h := ofInt_bytes s.m_iFlashMode hmt
    rw [List.append_nil] at h
    exact h
  have e3 : bytesInt (intBytes s.m_iGameSlot) = s.m_iGameSlot := by
    have h := bytesInt_intBytes s.m_iGameSlot hgs []
    rw [List.append_nil] at h
    exact h
  have q1 : ∀ rest : List Nat, streamRead (int3Bytes s.m_iMapperSlot ++ rest)
      (int3Bytes t.m_iMapperSlot) = (int3Bytes s.m_iMapperSlot, rest) :=
    fun rest => streamRead_append _ _ rest rfl
  have q2 : ∀ rest : List Nat, streamRead (int3Bytes s.m_iMapperSlotAddress ++ rest)
      (int3Bytes t.m_iMapperSlotAddress) = (int3Bytes s.m_iMapperSlotAddress, rest) :=
    fun rest => streamRead_append _ _ rest rfl
  have q3 : ∀ rest : List Nat, streamRead (intBytes s.m_iGameSlot ++ rest)
      (intBytes t.m_iGameSlot) = (intBytes s.m_iGameSlot, rest) :=
    fun rest => streamRead_append _ _ rest rfl
  have q4 : ∀ rest : List Nat, streamRead (intBytes s.m_iFlashMode.toInt ++ rest)
      (intBytes t.m_iFlashMode.toInt) = (intBytes s.m_iFlashMode.toInt, rest) :=
    fun rest => streamRead_append _ _ rest rfl
  have q5 : streamRead (int3Bytes s.m_iFlashStep) (int3Bytes t.m_iFlashStep)
      = (int3Bytes s.m_iFlashStep, []) := by
    have h := streamRead_append (int3Bytes s.m_iFlashStep) (int3Bytes t.m_iFlashStep) [] rfl
    rw [List.append_nil] at h
    exact h
  have r0 : streamReadBuffer (SaveState s []) t.m_pFlash 0x80000 =
      (fun i => if 0 ≤ i ∧ i < ((0x80000 : Nat) : Int) then s.m_pFlash i else t.m_pFlash i,
        int3Bytes s.m_iMapperSlot ++
          (int3Bytes s.m_iMapperSlotAddress ++
            (intBytes s.m_iGameSlot ++
              (intBytes s.m_iFlashMode.toInt ++ int3Bytes s.m_iFlashStep)))) := by
    rw [hsave]
    exact streamReadBuffer_append _ _ _ _
  simp only [LoadState, r0, q1, q2, q3, q4, q5,
    bytesInt3_int3Bytes _ hslot, bytesInt3_int3Bytes _ haddr, e3, e4, e5]

theorem snapshotEq_write (a b : IratahackMemoryRule) (h : SnapshotEq a b) (A v : Nat) :
    SnapshotEq (PerformWrite a A v) (PerformWrite b A v) := by
  obtain ⟨hf, hs, ha, hg, hm, hst⟩ := h
  have hsb : sectorBase a A = sectorBase b A := by
    unfold sectorBase
    rw [ha]
  have hfi : flashIndex a A = flashIndex b A := by
    unfold flashIndex
    rw [ha]
  simp only [PerformWrite, hm, hsb, hfi]
  split_ifs
  · rw [ProcessFlashAccess_eq, ProcessFlashAccess_eq, hm, hst]
    exact ⟨hf, hs, ha, hg, rfl, rfl⟩
  · exact ⟨hf, hs, ha, hg, rfl, rfl⟩
  · refine ⟨?_, hs, ha, hg, rfl, rfl⟩
    intro i hi0 hi1
    show memset a.m_pFlash _ 0xFF 0x4000 i = memset b.m_pFlash _ 0xFF 0x4000 i
    unfold memset
    split_ifs
    · rfl
    · exact hf i hi0 hi1
  · exact ⟨hf, hs, ha, hg, rfl, rfl⟩
  · exact ⟨hf, hs, ha, hg, rfl, rfl⟩
  · refine ⟨?_, hs, ha, hg, rfl, rfl⟩
    intro i hi0 hi1
    show store a.m_pFlash _ v i = store b.m_pFlash _ v i
    unfold store
    split_ifs
    · rfl
    · exact hf i hi0 hi1
  · exact ⟨hf, hs, ha, hg, rfl, rfl⟩
  · exact ⟨hf, hs, ha, hg, hm, hst⟩
  · exact ⟨hf, hs, ha, hg, rfl, hst⟩
  · refine ⟨hf, hs, ?_, rfl, rfl, hst⟩
    show Int3.mk _ _ _ = Int3.mk _ _ _
    rw [hs]
  · refine ⟨hf, ?_, ?_, hg, rfl, hst⟩
    · show Int3.set a.m_iMapperSlot 2 _ = Int3.set b.m_iMapperSlot 2 _
      rw [hs]
    · show Int3.set a.m_iMapperSlotAddress 2 _ = Int3.set b.m_iMapperSlotAddress 2 _
      rw [ha, hg]
  · exact ⟨hf, hs, ha, hg, rfl, hst⟩

theorem snapshotEq_writes (ws : List (Nat × Nat)) :
    ∀ a b : IratahackMemoryRule, SnapshotEq a b → SnapshotEq (writes a ws) (writes b ws) := by
  induction ws with
  | nil => intro a b h; exact h
  | cons w ws ih => intro a b h; exact ih _ _ (snapshotEq_write a b h w.1 w.2)

theorem snapshotEq_read (a b : IratahackMemoryRule) (h : SnapshotEq a b) (A : Nat)
    (hA : A < 0xC000) (h0 : 0 ≤ windowOffset b A) (h1 : windowOffset b A < 0x80000) :
    PerformRead a A = PerformRead b A := by
  obtain ⟨hf, _, ha, _, hm, _⟩ := h
  have hoff : windowOffset a A = windowOffset b A := by
    unfold windowOffset
    rw [ha]
  by_cases hid : A < 0x4000 ∧ b.m_iFlashMode = FlashSeqMode.FlashSeqID
  · simp only [PerformRead, if_pos hid.1, hm, if_pos hid.2]
  · have hcond : 0x4000 ≤ A ∨ b.m_iFlashMode ≠ FlashSeqMode.FlashSeqID := by
      by_cases hlt : A < 0x4000
      · exact Or.inr (fun hmode => hid ⟨hlt, hmode⟩)
      · exact Or.inl (by omega)
    rw [PerformRead_eq_windowOffset a A hA (hm ▸ hcond),
      PerformRead_eq_windowOffset b A hA hcond, hoff]
    exact hf _ h0 h1

theorem memory_write (a b : IratahackMemoryRule) (h : a.m_pMemory = b.m_pMemory) (A v : Nat) :
    (PerformWrite a A v).m_pMemory = (PerformWrite b A v).m_pMemory := by
  unfold PerformWrite
  split_ifs <;> first
    | exact h
    | (show Memory.Load (Memory.Load a.m_pMemory _ _) _ _
          = Memory.Load (Memory.Load b.m_pMemory _ _) _ _
       rw [h])

theorem memory_writes (ws : List (Nat × Nat)) :
    ∀ a b : IratahackMemoryRule, a.m_pMemory = b.m_pMemory →
      (writes a ws).m_pMemory = (writes b ws).m_pMemory := by
  induction ws with
  | nil => intro a b h; exact h
  | cons w ws ih => intro a b h; exact ih _ _ (memory_write a b h w.1 w.2)

theorem slotInv_writes (ws : List (Nat × Nat)) :
    ∀ s : IratahackMemoryRule, SlotInv s → SlotInv (writes s ws) := by
  induction ws with
  | nil => intro s h; exact h
  | cons w ws ih => intro s h; exact ih _ (slotInv_write s w.1 w.2 h)

theorem windowOffset_range (s : IratahackMemoryRule) (h : SlotInv s) (A : Nat)
    (hA : A < 0xC000) : 0 ≤ windowOffset s A ∧ windowOffset s A < 0x80000 := by
  obtain ⟨g0, g3, b0, b7, a0, a1, a2⟩ := h
  unfold windowOffset
  simp only [Int3.get]
  split_ifs <;> omega

theorem freshState_wellTyped : WellTyped freshState := by
  have hs : freshState.m_iMapperSlot = ⟨0, 1, 0⟩ := rfl
  have ha : freshState.m_iMapperSlotAddress = ⟨0x0000, 0x4000, 0x0000⟩ := rfl
  have hg : freshState.m_iGameSlot = 0 := rfl
  have hm : freshState.m_iFlashMode.toInt = 3 := rfl
  have hst : freshState.m_iFlashStep = ⟨0, 0, 0⟩ := rfl
  unfold WellTyped IsInt32
  rw [hs, ha, hg, hm, hst]
  norm_num

theorem rawTagState_wellTyped :
    WellTyped { freshState with m_iFlashMode := FlashSeqMode.raw 7 (Or.inr (by decide)) } := by
  obtain ⟨h1, h2, h3, _, h5⟩ := freshState_wellTyped
  refine ⟨h1, h2, h3, ?_, h5⟩
  show IsInt32 7
  unfold IsInt32
  norm_num

/-- C11, as stated, fails for a state whose window offset points outside the
flash store: a snapshot holds the 0x80000 bytes of the store only.  Take the
state right after `Reset` with `m_iMapperSlotAddress[0]` set to 0x80000 (all
`int` members hold `int` values) and load its snapshot into an instance whose
buffer and surrounding memory hold 0x77.  The loaded instance agrees with the
saved one on the store and on every register, yet `PerformRead(0x0000)`, which
reads `m_pFlash[0x80000]`, returns 0 on the saved instance and 0x77 on the
loaded one. -/
theorem snapshot_round_trip_counterexample :
    WellTyped { freshState with m_iMapperSlotAddress := ⟨0x80000, 0x4000, 0⟩ } ∧
    SnapshotEq
      (LoadState { blankState with m_pFlash := fun _ => 0x77 }
        (SaveState { freshState with m_iMapperSlotAddress := ⟨0x80000, 0x4000, 0⟩ } []))
      { freshState with m_iMapperSlotAddress := ⟨0x80000, 0x4000, 0⟩ } ∧
    (0 : Nat) < 0xC000 ∧
    PerformRead { freshState with m_iMapperSlotAddress := ⟨0x80000, 0x4000, 0⟩ } 0 = 0 ∧
    PerformRead
      (LoadState { blankState with m_pFlash := fun _ => 0x77 }
        (SaveState { freshState with m_iMapperSlotAddress := ⟨0x80000, 0x4000, 0⟩ } [])) 0
      = 0x77 := by
  have hty : WellTyped { freshState with m_iMapperSlotAddress := ⟨0x80000, 0x4000, 0⟩ } := by
    obtain ⟨h1, _, h3, h4, h5⟩ := freshState_wellTyped
    refine ⟨h1, ?_, h3, h4, h5⟩
    unfold IsInt32
    norm_num
  have hload := LoadState_SaveState
    { freshState with m_iMapperSlotAddress := ⟨0x80000, 0x4000, 0⟩ }
    { blankState with m_pFlash := fun _ => 0x77 } hty
  refine ⟨hty, ?_, by decide, by decide, ?_⟩
  · rw [hload]
    refine ⟨?_, rfl, rfl, rfl, rfl, rfl⟩
    intro i hi0 hi1
    have hin : 0 ≤ i ∧ i < ((0x80000 : Nat) : Int) := ⟨hi0, by omega⟩
    show (if 0 ≤ i ∧ i < ((0x80000 : Nat) : Int) then _ else _) = _
    rw [if_pos hin]
  · rw [hload]
    have hmode : freshState.m_iFlashMode = FlashSeqMode.FlashSeqCount := rfl
    simp [PerformRead, Int3.get, hmode]

/-- C11 (snapshot round trip), amended: the reads that agree are those whose
index lies inside the flash store.  For every state `s` (its `int` members and
its mode tag holding `int` values) the bytes `SaveState` writes are the 0x80000
flash bytes followed by the bytes of `m_iMapperSlot[0..2]`,
`m_iMapperSlotAddress[0..2]`, `m_iGameSlot`, the mode tag and
`m_iFlashStep[0..2]`, in that order; `LoadState` applied to them on any
instance `t` gives an instance that agrees with `s` on the flash store and on
all these members; after any further sequence of `PerformWrite` calls the two
instances still agree on all of them; every `PerformRead` below 0xC000 whose
index lies inside the flash store returns the same byte on both, which is
every such read when `s` satisfies the derived-offset relation (as every state
reachable from `Reset` does); and when the two instances start on the same
console RAM they also leave the same console RAM. -/
theorem snapshot_round_trip (s t : IratahackMemoryRule) (hty : WellTyped s) :
    SaveState s [] =
      bufferBytes s.m_pFlash 0x80000 ++
        (int3Bytes s.m_iMapperSlot ++
          (int3Bytes s.m_iMapperSlotAddress ++
            (intBytes s.m_iGameSlot ++
              (intBytes s.m_iFlashMode.toInt ++ int3Bytes s.m_iFlashStep)))) ∧
    SnapshotEq (LoadState t (SaveState s [])) s ∧
    (∀ ws : List (Nat × Nat),
      SnapshotEq (writes (LoadState t (SaveState s [])) ws) (writes s ws)) ∧
    (∀ (ws : List (Nat × Nat)) (A : Nat), A < 0xC000 →
      0 ≤ windowOffset (writes s ws) A → windowOffset (writes s ws) A < 0x80000 →
      PerformRead (writes (LoadState t (SaveState s [])) ws) A = PerformRead (writes s ws) A) ∧
    (SlotInv s → ∀ (ws : List (Nat × Nat)) (A : Nat), A < 0xC000 →
      PerformRead (writes (LoadState t (SaveState s [])) ws) A = PerformRead (writes s ws) A) ∧
    (t.m_pMemory = s.m_pMemory → ∀ ws : List (Nat × Nat),
      (writes (LoadState t (SaveState s [])) ws).m_pMemory = (writes s ws).m_pMemory) := by
  have hload := LoadState_SaveState s t hty
  have heq : SnapshotEq (LoadState t (SaveState s [])) s := by
    rw [hload]
    refine ⟨?_, rfl, rfl, rfl, rfl, rfl⟩
    intro i hi0 hi1
    have hin : 0 ≤ i ∧ i < ((0x80000 : Nat) : Int) := ⟨hi0, by omega⟩
    show (if 0 ≤ i ∧ i < ((0x80000 : Nat) : Int) then s.m_pFlash i else t.m_pFlash i)
      = s.m_pFlash i
    rw [if_pos hin]
  have hmem : (LoadState t (SaveState s [])).m_pMemory = t.m_pMemory := by
    rw [hload]
  refine ⟨List.nil_append _, heq, fun ws => snapshotEq_writes ws _ _ heq, ?_, ?_, ?_⟩
  · intro ws A hA h0 h1
    exact snapshotEq_read _ _ (snapshotEq_writes ws _ _ heq) A hA h0 h1
  · intro hinv ws A hA
    obtain ⟨h0, h1⟩ := windowOffset_range _ (slotInv_writes ws s hinv) A hA
    exact snapshotEq_read _ _ (snapshotEq_writes ws _ _ heq) A hA h0 h1
  · intro hm ws
    exact memory_writes ws _ _ (hmem.trans hm)

/-- Instance of `snapshot_round_trip`: a snapshot of the state right after
`Reset` whose mode member stores the raw tag 7, loaded into an instance with
another flash buffer and registers. -/
theorem snapshot_round_trip_witness :
    WellTyped { freshState with m_iFlashMode := FlashSeqMode.raw 7 (Or.inr (by decide)) } ∧
    SnapshotEq
      (LoadState { blankState with m_iGameSlot := 3, m_pFlash := fun _ => 0x77 }
        (SaveState
          { freshState with m_iFlashMode := FlashSeqMode.raw 7 (Or.inr (by decide)) } []))
      { freshState with m_iFlashMode := FlashSeqMode.raw 7 (Or.inr (by decide)) } :=
  ⟨rawTagState_wellTyped,
    (snapshot_round_trip
      { freshState with m_iFlashMode := FlashSeqMode.raw 7 (Or.inr (by decide)) }
      { blankState with m_iGameSlot := 3, m_pFlash := fun _ => 0x77 }
      rawTagState_wellTyped).2.1⟩

end Iratahack
